import Mathlib

/-!
Verification development for the ff-website-converter migration tool
(src/main.rs). The Rust source is shallowly embedded: pure string
processing becomes functions on `List Char` / `String`, the panicking
paths (`unwrap` / `expect`) become `Except String`, and the filesystem
effects of the migration writer become an explicit state (the set of
existing paths) together with a trace of operations.
-/

set_option maxRecDepth 10000

namespace FFConv

/-! ## Decimal formatting (models Rust integer `Display` / `to_string`) -/

/-- Map a digit value (0-9) to its character. -/
def digitChar (d : Nat) : Char :=
  match d with
  | 0 => '0' | 1 => '1' | 2 => '2' | 3 => '3' | 4 => '4'
  | 5 => '5' | 6 => '6' | 7 => '7' | 8 => '8' | _ => '9'

/-- Numeric value of a decimal digit character. -/
def digitVal (c : Char) : Nat := c.toNat - 48

/-- Fuel-driven accumulator loop producing the decimal digits of `n`
(most significant first), prepended to `acc`. -/
def natDigitsAux : Nat → Nat → List Char → List Char
  | 0, _, acc => acc
  | fuel + 1, n, acc =>
    let acc1 := digitChar (n % 10) :: acc
    if n < 10 then acc1 else natDigitsAux fuel (n / 10) acc1

/-- Decimal rendering of a natural number, modelling Rust's `{}`
formatting of unsigned integers and `to_string`. -/
def natDecimal (n : Nat) : String := String.mk (natDigitsAux (n + 1) n [])

/-- Value of a digit string read most-significant-first. -/
def decimalValue (cs : List Char) : Nat := cs.foldl (fun v c => 10 * v + digitVal c) 0

/-- Left-pad a string with zeros to width `w`, modelling Rust's
`format!("{:0>w}", s)` (no truncation when the string is longer). -/
def padZero (w : Nat) (s : String) : String :=
  String.mk (List.replicate (w - s.data.length) '0' ++ s.data)

/-! ## Field parsers -/

/-- The Unicode `White_Space` class: this is both the regex crate's
`\s` (Unicode mode, the default) and Rust's `char::is_whitespace`
(which chrono's parser uses to skip whitespace before numeric fields).
Code points: U+0009-U+000D, U+0020, U+0085, U+00A0, U+1680,
U+2000-U+200A, U+2028, U+2029, U+202F, U+205F, U+3000. -/
def isWsChar (c : Char) : Bool :=
  c = ' ' || c = '\t' || c = '\n' || c = '\x0b' || c = '\x0c' || c = '\r'
    || c = '\u0085' || c = '\u00A0' || c = '\u1680'
    || (0x2000 ≤ c.toNat && c.toNat ≤ 0x200A)
    || c = '\u2028' || c = '\u2029' || c = '\u202F' || c = '\u205F' || c = '\u3000'

/-- `str::trim_start`: chrono applies it before every numeric field and
for the format string's whitespace item. -/
def dropWs (cs : List Char) : List Char := cs.dropWhile isWsChar

/-- Up to `max` leading ASCII digits, with the rest of the input
(chrono's `scan::number(s, 1, width)` reads greedily up to the field
width). -/
def takeDigitsUpTo : Nat → List Char → List Char × List Char
  | 0, cs => ([], cs)
  | _ + 1, [] => ([], [])
  | n + 1, c :: rest =>
    if c.isDigit then
      let pr := takeDigitsUpTo n rest
      (c :: pr.1, pr.2)
    else ([], c :: rest)

/-- All leading ASCII digits (the unbounded `scan::number` chrono uses
for an explicitly signed year). -/
def takeDigitsAll : List Char → List Char × List Char
  | [] => ([], [])
  | c :: rest =>
    if c.isDigit then
      let pr := takeDigitsAll rest
      (c :: pr.1, pr.2)
    else ([], c :: rest)

/-- Result of parsing a `created` timestamp, modelling the fields of
`chrono::NaiveDateTime` that the program can observe.  The year is an
`i32` in chrono (it can be negative), hence `Int` here. -/
structure NaiveDateTime where
  year : Int
  month : Nat
  day : Nat
  hour : Nat
  minute : Nat
  second : Nat
deriving DecidableEq, Repr

/-- Proleptic-Gregorian leap-year rule; chrono reduces the year with
`rem_euclid`, which is `Int.emod` with a positive modulus. -/
def isLeapYear (y : Int) : Bool := (y % 4 == 0 && y % 100 != 0) || y % 400 == 0

def daysInMonth (y : Int) (m : Nat) : Nat :=
  if m == 2 then (if isLeapYear y then 29 else 28)
  else if m == 4 || m == 6 || m == 9 || m == 11 then 30
  else 31

/-- An unsigned numeric field of width `w`: skip leading whitespace,
then read 1 to `w` digits (chrono trims before every numeric item and
then calls `scan::number(s, 1, w)`). -/
def parseNumField (w : Nat) (cs : List Char) : Option (Nat × List Char) :=
  let pr := takeDigitsUpTo w (dropWs cs)
  if pr.1.isEmpty then none else some (decimalValue pr.1, pr.2)

/-- The `%Y` field: skip leading whitespace; with an explicit `-` or `+`
sign read any number of digits, otherwise read 1 to 4 digits. -/
def parseYearField (cs : List Char) : Option (Int × List Char) :=
  match dropWs cs with
  | '-' :: rest =>
    let pr := takeDigitsAll rest
    if pr.1.isEmpty then none else some (-(decimalValue pr.1 : Int), pr.2)
  | '+' :: rest =>
    let pr := takeDigitsAll rest
    if pr.1.isEmpty then none else some ((decimalValue pr.1 : Int), pr.2)
  | cs1 =>
    let pr := takeDigitsUpTo 4 cs1
    if pr.1.isEmpty then none else some ((decimalValue pr.1 : Int), pr.2)

/-- A literal character of the format string: chrono matches it exactly,
with no whitespace skipping. -/
def expectLit (c : Char) (cs : List Char) : Option (List Char) :=
  match cs with
  | d :: rest => if d = c then some rest else none
  | [] => none

/-- Models `chrono::NaiveDateTime::parse_from_str(s, "%Y-%m-%d %H:%M:%S")`.
chrono's parser is width-flexible: each numeric field skips leading
whitespace and reads 1 to width digits (year: 1-4 digits, or a signed
`+`/`-` year with any number of digits; month, day, hour, minute,
second: 1-2 digits); the `-` and `:` literals must match exactly; the
format's space matches any (possibly empty) whitespace run; the whole
input must be consumed; and the fields must form a valid
proleptic-Gregorian date-time, with the year in `NaiveDate`'s range
`-262144..=262143` and second `60` (leap second) accepted. -/
def parseDateTime (s : String) : Option NaiveDateTime := do
  let (y, r1) ← parseYearField s.data
  let r2 ← expectLit '-' r1
  let (mo, r3) ← parseNumField 2 r2
  let r4 ← expectLit '-' r3
  let (d, r5) ← parseNumField 2 r4
  let (h, r7) ← parseNumField 2 (dropWs r5)
  let r8 ← expectLit ':' r7
  let (mi, r9) ← parseNumField 2 r8
  let r10 ← expectLit ':' r9
  let (se, r11) ← parseNumField 2 r10
  if r11.isEmpty ∧ (-262144 : Int) ≤ y ∧ y ≤ 262143
      ∧ 1 ≤ mo ∧ mo ≤ 12 ∧ 1 ≤ d ∧ d ≤ daysInMonth y mo
      ∧ h ≤ 23 ∧ mi ≤ 59 ∧ se ≤ 60 then
    some ⟨y, mo, d, h, mi, se⟩
  else none

/-- The `as u32` cast applied to `date.year()` (an `i32`): the
two's-complement value, i.e. the year modulo `2^32`. -/
def yearAsU32 (y : Int) : Nat := (y % (4294967296 : Int)).toNat

/-- Models `str::parse::<u32>`: optional leading `+`, then one or more
decimal digits, value bounded by `u32::MAX`. -/
def parseU32 (s : String) : Option Nat :=
  let ds := match s.data with
    | '+' :: t => t
    | t => t
  if ds.isEmpty then none
  else if ds.all Char.isDigit then
    let v := decimalValue ds
    if v < 2 ^ 32 then some v else none
  else none

/-! ## Text normalisation (the lazy-static regexes of main.rs) -/

/-- State machine for `CLEAN_REGEX = "<[^<>]+>"` replace-all by `""`.
The state is `none` outside a candidate tag; after a `<` it is
`some racc` with the (reversed) `[^<>]` chars seen so far.  On `>` with
a nonempty body the whole tag is deleted; on `>` with an empty body
(`<>`) there is no match and the two chars are kept; on another `<`
the previous `<` cannot match (its body would contain `<`), so it is
emitted and the new `<` starts a fresh candidate; at end of input the
pending chars are kept. -/
def stripGo : Option (List Char) → List Char → List Char
  | none, [] => []
  | none, '<' :: rest => stripGo (some []) rest
  | none, c :: rest => c :: stripGo none rest
  | some racc, [] => '<' :: racc.reverse
  | some racc, '>' :: rest =>
    if racc.isEmpty then '<' :: '>' :: stripGo none rest else stripGo none rest
  | some racc, '<' :: rest => '<' :: racc.reverse ++ stripGo (some []) rest
  | some racc, c :: rest => stripGo (some (c :: racc)) rest

/-- `CLEAN_REGEX.replace_all(text, "")`. -/
def stripTags (cs : List Char) : List Char := stripGo none cs

/-- Models `str::replace("\u{a0}", "")`: delete every non-breaking space. -/
def removeNbsp (cs : List Char) : List Char := cs.filter (fun c => c ≠ '\u00A0')

/-- Models `str::replace("\r\n", "\n")`, leftmost non-overlapping. -/
def crlfToLf : List Char → List Char
  | '\r' :: '\n' :: rest => '\n' :: crlfToLf rest
  | c :: rest => c :: crlfToLf rest
  | [] => []

/-- Models `NEW_LINE_AFTER_DOT_REGEX = "([^0-9])(\.\s)"` replaced
(leftmost, non-overlapping) by `"${1}.\n"`: a non-digit char, a period
and one whitespace char become the char, the period and a newline. -/
def dotNewline : List Char → List Char
  | c :: '.' :: w :: rest =>
    if ¬ c.isDigit ∧ isWsChar w then c :: '.' :: '\n' :: dotNewline rest
    else c :: dotNewline ('.' :: w :: rest)
  | c :: rest => c :: dotNewline rest
  | [] => []

/-- Models `NEW_LINE_AT_BEGINING_REGEX = "^(\n)+"` replaced by `""`:
strip the maximal leading run of newlines. -/
def stripLeadingNewlines : List Char → List Char
  | '\n' :: rest => stripLeadingNewlines rest
  | cs => cs

/-- The full text normalisation of `get_article`, in source order:
tag stripping, non-breaking-space removal, CRLF normalisation, sentence
reflow, leading-newline strip. -/
def normalizeChars (cs : List Char) : List Char :=
  stripLeadingNewlines (dotNewline (crlfToLf (removeNbsp (stripTags cs))))

def normalizeText (s : String) : String := String.mk (normalizeChars s.data)

/-! ## Image extraction (`IMAGE_REGEX = "src=\"([^\"]+)\""`) -/

/-- Character expected at progress `p` of the literal `src="`. -/
def srcPatChar (p : Nat) : Char :=
  match p with
  | 0 => 's' | 1 => 'r' | 2 => 'c' | 3 => '=' | _ => '"'

/-- State machine for `captures_iter` of `src="([^"]+)"`.  State
`Sum.inl p` is scanning mode with `p < 5` chars of the literal `src="`
already consumed; since the literal's five characters are pairwise
distinct, on a mismatch the only possible restart is at the
mismatching character itself (progress 1 when it is `s`, else 0).
State `Sum.inr racc` is capturing mode after `src="`, accumulating
`[^"]` chars (reversed); a closing quote with a nonempty body yields a
capture, while with an empty body (`src=""`) the match fails and,
the consumed characters containing no `s`, scanning resumes after the
quote. -/
def imgGo : Nat ⊕ List Char → List Char → List (List Char)
  | _, [] => []
  | Sum.inl p, c :: rest =>
    if c = srcPatChar p then
      if p = 4 then imgGo (Sum.inr []) rest else imgGo (Sum.inl (p + 1)) rest
    else if c = 's' then imgGo (Sum.inl 1) rest
    else imgGo (Sum.inl 0) rest
  | Sum.inr racc, '"' :: rest =>
    if racc.isEmpty then imgGo (Sum.inl 0) rest
    else racc.reverse :: imgGo (Sum.inl 0) rest
  | Sum.inr racc, c :: rest => imgGo (Sum.inr (c :: racc)) rest

/-- All captures of `IMAGE_REGEX` over a string, in order of occurrence,
duplicates retained. -/
def extractImages (s : String) : List String :=
  (imgGo (Sum.inl 0) s.data).map (fun cs => String.mk cs)

/-! ## Data model -/

/-- One element of the input document's `data` array, as `get_articles`
observes it: each field is `some s` exactly when the JSON member is
present with a string value (the behaviour of `Value::as_str`). -/
structure RawRecord where
  created : Option String
  catid : Option String
  title : Option String
  introtext : Option String
deriving DecidableEq, Repr

/-- The `Article` struct of main.rs (`PathBuf` images modelled as
strings). -/
structure Article where
  title : String
  date : String
  text : String
  images : List String
deriving DecidableEq, Repr

/-- The `YearArticles` struct of main.rs. -/
structure YearArticles where
  year : Nat
  articles : List Article
deriving DecidableEq, Repr

/-! ## Rendering (`Article::to_markdown` and helpers) -/

/-- Models `Article::format_article_index`: `format!("{:0>4}", index)`. -/
def formatArticleIndex (index : Nat) : String := padZero 4 (natDecimal index)

/-- Models `Article::format_image_index`: `format!("{:0>2}", index)`. -/
def formatImageIndex (index : Nat) : String := padZero 2 (natDecimal index)

/-- One `resources:` entry of the loop body in `Article::to_markdown`. -/
def resourceEntry (year : Nat) (fai : String) (j : Nat) : String :=
  "- name: img-" ++ formatImageIndex j ++ "\n" ++
    "  src: img/" ++ natDecimal year ++ "-" ++ fai ++ "-" ++ formatImageIndex j ++ ".jpg\n"

/-- One image shortcode of the loop body in `Article::to_markdown`. -/
def imageShortcode (j : Nat) : String :=
  "\x7b\x7b< image src=\"img-" ++ formatImageIndex j ++ "\" >\x7d\x7d  \n"

/-- Models `Article::to_markdown`.  The Rust loop
`for image_index in 0..self.images.len()` pushes a resource entry onto
`output` and a shortcode onto `images_shortcodes` per index; it is
embedded as a fold over `List.range`. -/
def Article.toMarkdown (a : Article) (year : Nat) (index : Nat) : String :=
  let fai := formatArticleIndex index
  let head := "---\n" ++ "title: " ++ a.title ++ "\n" ++ "date: " ++ a.date ++ "\n"
    ++ "description: " ++ a.title ++ "\n"
  let step := fun (acc : String × String) (j : Nat) =>
    (acc.1 ++ resourceEntry year fai j, acc.2 ++ imageShortcode j)
  let mid :=
    if a.images.isEmpty then ("thumbnail: img/default.png\n", "")
    else
      (List.range a.images.length).foldl step
        ("thumbnail: img/einsaetze/" ++ natDecimal year ++ "/" ++ fai ++ ".jpg\n"
          ++ "resources:\n", "")
  head ++ mid.1 ++ "---\n\n" ++ a.text ++ mid.2

/-! ## Selector (`get_article` / `get_articles`) -/

/-- Models `get_article` (main.rs lines 207-237); the three `expect`
calls on missing fields become errors. -/
def getArticle (r : RawRecord) : Except String Article :=
  match r.introtext with
  | none => Except.error "Inrtotext not found"
  | some introtext =>
    match r.title with
    | none => Except.error "Title not found"
    | some title =>
      let text := normalizeText introtext
      let images := extractImages introtext
      match r.created with
      | none => Except.error "Created not found"
      | some date => Except.ok { title := title, date := date, text := text, images := images }

/-- Models the filter closure of `get_articles`: presence checks via
`as_str`, then `parse_from_str(..).unwrap()` on `created`, then —
only when the year matches, because `&&` short-circuits — the
`parse::<u32>().unwrap()` on `catid`. -/
def selectRecord (r : RawRecord) (year catid : Nat) : Except String Bool :=
  match r.created, r.catid with
  | some jsonDate, some jsonCatid =>
    match parseDateTime jsonDate with
    | none => Except.error "called `Result::unwrap()` on an `Err` value (date)"
    | some date =>
      if yearAsU32 date.year = year then
        match parseU32 jsonCatid with
        | none => Except.error "called `Result::unwrap()` on an `Err` value (catid)"
        | some c => Except.ok (c = catid)
      else Except.ok false
  | _, _ => Except.ok false

/-- The fused filter-map pass of `get_articles`: records are examined in
order; the filter closure runs on each record and `get_article` runs on
each record it keeps, so the first panic (in source order) aborts. -/
def selectAndMap (year catid : Nat) : List RawRecord → Except String (List Article)
  | [] => Except.ok []
  | r :: rest =>
    match selectRecord r year catid with
    | Except.error e => Except.error e
    | Except.ok false => selectAndMap year catid rest
    | Except.ok true =>
      match getArticle r with
      | Except.error e => Except.error e
      | Except.ok a =>
        match selectAndMap year catid rest with
        | Except.error e => Except.error e
        | Except.ok as1 => Except.ok (a :: as1)

/-- Lexicographic comparison of character lists by code point, which
coincides with Rust's byte-lexicographic `String` ordering (UTF-8
preserves code-point order). -/
def charListLe : List Char → List Char → Bool
  | [], _ => true
  | _ :: _, [] => false
  | c :: cs, d :: ds =>
    if c.toNat < d.toNat then true
    else if d.toNat < c.toNat then false
    else charListLe cs ds

/-- Boolean date comparison used by `articles.sort_by_key(|x| x.date.clone())`
(Rust `String` ordering is lexicographic on the bytes). -/
def dateLe (a b : Article) : Bool := charListLe a.date.data b.date.data

/-- Models `get_articles` (main.rs lines 190-205).  Rust's
`sort_by_key` is a stable sort; it is embedded as `List.mergeSort`,
which core Lean proves stable. -/
def getArticles (records : List RawRecord) (year catid : Nat) : Except String YearArticles :=
  match selectAndMap year catid records with
  | Except.error e => Except.error e
  | Except.ok articles => Except.ok { year := year, articles := articles.mergeSort dateLe }

/-! ## Filesystem model and the migration writer

Paths are lists of components (`PathBuf::join` with relative single
components appends one component; an image path captured from the
source text is kept as a single opaque component).  The filesystem
state is the set of existing paths; a run produces a trace of
operations.  `fs::create_dir` fails on an existing path, `fs::copy`
fails on a missing source, `fs::write` and `fs::create_dir_all`
succeed; every `expect` failure is a fatal `Except.error`. -/

abbrev FsPath := List String

def joinPath (p : FsPath) (c : String) : FsPath := p ++ [c]

/-- A recorded filesystem effect. -/
inductive FsOp where
  | createDirAll (p : FsPath)
  | createDir (p : FsPath)
  | writeFile (p : FsPath) (contents : String)
  | copyFile (src dst : FsPath)
deriving DecidableEq, Repr

/-- The set of existing filesystem paths. -/
structure FsState where
  paths : List FsPath
deriving DecidableEq, Repr

def FsState.add (st : FsState) (p : FsPath) : FsState := ⟨p :: st.paths⟩

/-- `OLD_WEBSITE_DIR`: `PathBuf::from("website.old")`. -/
def oldWebsiteDir : FsPath := ["website.old"]

/-- `OUTPUT_DIR`: `PathBuf::from("output")`. -/
def outputDir : FsPath := ["output"]

/-- Models `Article::write`: skip (with a log line, not an error) when
`index.md` already exists, otherwise write the rendered markdown. -/
def Article.write (a : Article) (st : FsState) (articleDir : FsPath)
    (year : Nat) (articleIndex : Nat) : FsState × List FsOp :=
  let articlePath := joinPath articleDir "index.md"
  if articlePath ∈ st.paths then (st, [])
  else (st.add articlePath, [FsOp.writeFile articlePath (a.toMarkdown year articleIndex)])

/-- Models `YearArticles::copy_images`: each image of the article is
copied from the legacy tree to `{dir}/{year}-{articleIndex}-{imageIndex}.jpg`;
a missing source is fatal. -/
def copyImagesLoop (year : Nat) (articleImageDir : FsPath) (articleIndex : Nat) :
    FsState → Nat → List String → Except String (FsState × List FsOp)
  | st, _, [] => Except.ok (st, [])
  | st, j, img :: rest =>
    let imageName := natDecimal year ++ "-" ++ formatArticleIndex articleIndex
      ++ "-" ++ formatImageIndex j ++ ".jpg"
    let src := joinPath oldWebsiteDir img
    let dst := joinPath articleImageDir imageName
    if src ∈ st.paths then
      match copyImagesLoop year articleImageDir articleIndex (st.add dst) (j + 1) rest with
      | Except.error e => Except.error e
      | Except.ok (st1, ops) => Except.ok (st1, FsOp.copyFile src dst :: ops)
    else Except.error "Failed to copy image"

/-- Models `YearArticles::write_article`: create the article directory
(fatal if it exists), write the article, create the `img` directory
(fatal if it exists), copy the images. -/
def writeArticleFs (year : Nat) (st : FsState) (articleYearDir : FsPath)
    (a : Article) (articleIndex : Nat) : Except String (FsState × List FsOp) :=
  let articleDir := joinPath articleYearDir (formatArticleIndex articleIndex)
  if articleDir ∈ st.paths then Except.error "Failed to create article directory"
  else
    let st1 := st.add articleDir
    let ws := a.write st1 articleDir year articleIndex
    let articleImageDir := joinPath articleDir "img"
    if articleImageDir ∈ ws.1.paths then Except.error "Failed to create image directory"
    else
      match copyImagesLoop year articleImageDir articleIndex (ws.1.add articleImageDir) 0 a.images with
      | Except.error e => Except.error e
      | Except.ok (st2, cops) =>
        Except.ok (st2, FsOp.createDir articleDir :: ws.2
          ++ FsOp.createDir articleImageDir :: cops)

/-- The `_index.md` front matter written by `YearArticles::write_series_index`. -/
def seriesIndexContent (year : Nat) : String :=
  "---\n" ++ "title: Einsätze " ++ natDecimal year ++ "\n" ++ "nested: false\n" ++ "---\n"

/-- Models `YearArticles::write_series_index` (`fs::write` always
succeeds in the model). -/
def writeSeriesIndexFs (year : Nat) (st : FsState) (seriesDir : FsPath) :
    FsState × List FsOp :=
  let p := joinPath seriesDir "_index.md"
  (st.add p, [FsOp.writeFile p (seriesIndexContent year)])

/-- Models `YearArticles::copy_thumbnail`: for an article with at least
one image, copy the first image to `{thumbnailDir}/{articleIndex}.jpg`. -/
def copyThumbnailFs (_year : Nat) (thumbnailDir : FsPath) (st : FsState)
    (a : Article) (articleIndex : Nat) : Except String (FsState × List FsOp) :=
  match a.images.head? with
  | none => Except.ok (st, [])
  | some img =>
    let src := joinPath oldWebsiteDir img
    let dst := joinPath thumbnailDir (formatArticleIndex articleIndex ++ ".jpg")
    if src ∈ st.paths then Except.ok (st.add dst, [FsOp.copyFile src dst])
    else Except.error "Failed to copy thumbnail"

/-- The per-article body of the `enumerate` loop in
`YearArticles::write_articles`: series index, article, thumbnail. -/
def writeArticlesLoop (year : Nat) (seriesDir thumbnailDir : FsPath) :
    FsState → Nat → List Article → Except String (FsState × List FsOp)
  | st, _, [] => Except.ok (st, [])
  | st, i, a :: rest =>
    let sw := writeSeriesIndexFs year st seriesDir
    match writeArticleFs year sw.1 seriesDir a i with
    | Except.error e => Except.error e
    | Except.ok (st2, aops) =>
      match copyThumbnailFs year thumbnailDir st2 a i with
      | Except.error e => Except.error e
      | Except.ok (st3, tops) =>
        match writeArticlesLoop year seriesDir thumbnailDir st3 (i + 1) rest with
        | Except.error e => Except.error e
        | Except.ok (st4, rops) => Except.ok (st4, sw.2 ++ aops ++ tops ++ rops)

/-- Models `YearArticles::write_articles` (main.rs lines 96-118): if the
year's content directory already exists the whole year is skipped with
no effect; otherwise the year and thumbnail directories are created and
the enumerate loop runs. -/
def YearArticles.writeArticles (ya : YearArticles) (st : FsState) (out : FsPath) :
    Except String (FsState × List FsOp) :=
  let seriesDir := joinPath (joinPath out "content") (natDecimal ya.year)
  let thumbnailDir := joinPath (joinPath out "thumbnail") (natDecimal ya.year)
  if seriesDir ∈ st.paths then Except.ok (st, [])
  else
    let st1 := (st.add seriesDir).add thumbnailDir
    match writeArticlesLoop ya.year seriesDir thumbnailDir st1 0 ya.articles with
    | Except.error e => Except.error e
    | Except.ok (st2, ops) =>
      Except.ok (st2, FsOp.createDirAll seriesDir :: FsOp.createDirAll thumbnailDir :: ops)

/-! ## Reference digit spec (for reasoning about `natDecimal`) -/

/-- Reference decimal digit list (most significant first), used to
reason about the fuel-driven `natDigitsAux`. -/
def specDigits (n : Nat) : List Char :=
  if n < 10 then [digitChar n] else specDigits (n / 10) ++ [digitChar (n % 10)]
termination_by n
decreasing_by exact Nat.div_lt_self (by omega) (by omega)

/-! ## Claim-side (specification) definitions

These definitions follow the wording of the claims being checked, not
the source; each claim theorem relates them to the embedded code. -/

/-- Claim C1's selection predicate: `created` and `catid` both present
as strings, parsed creation year equal to `year`, parsed category equal
to `catid`. -/
def claimKeep (year catid : Nat) (r : RawRecord) : Bool :=
  match r.created, r.catid with
  | some d, some k =>
    (match parseDateTime d with
     | some dt => yearAsU32 dt.year = year
     | none => false)
    && (match parseU32 k with
        | some v => v = catid
        | none => false)
  | _, _ => false

/-- Claim C1's mapped selection: the kept records, in source order,
mapped through the normalizer. -/
def claimSelected (year catid : Nat) (records : List RawRecord) : List Article :=
  records.filterMap (fun r =>
    if claimKeep year catid r then (getArticle r).toOption else none)

/-- Stable insertion by non-decreasing date: the element being inserted
comes from earlier in the source than the already-sorted tail, so it is
placed before the first element it is `≤`-related to (ties keep source
order). -/
def insertArticleByDate (a : Article) : List Article → List Article
  | [] => [a]
  | b :: l => if dateLe a b then a :: b :: l else b :: insertArticleByDate a l

/-- Claim-side stable sort: textbook stable insertion sort by date. -/
def sortArticlesByDate : List Article → List Article
  | [] => []
  | a :: l => insertArticleByDate a (sortArticlesByDate l)

/-- Substring occurrence: `hasPrefixL pat cs` tests a match at the
head. -/
def hasPrefixL : List Char → List Char → Bool
  | [], _ => true
  | _ :: _, [] => false
  | p :: ps, c :: cs => p = c && hasPrefixL ps cs

/-- Substring occurrence of `pat` anywhere in `cs`. -/
def occursIn (pat : List Char) : List Char → Bool
  | [] => hasPrefixL pat []
  | c :: t => hasPrefixL pat (c :: t) || occursIn pat (t : List Char)

/-- Does the text contain an occurrence of `NEW_LINE_AFTER_DOT_REGEX`
(non-digit, period, whitespace)?  Checks every length-3 window. -/
def hasDotMatch : List Char → Bool
  | c :: b :: w :: rest =>
    (decide (b = '.') && !c.isDigit && isWsChar w) || hasDotMatch (b :: w :: rest)
  | _ => false

/-- Claim C4's notion of a (reflow-safe) sentence: ends with a
non-digit character followed by a period, and contains no sentence
terminator pattern internally. -/
def sentenceOk (s : List Char) : Bool :=
  match s.reverse with
  | '.' :: c :: _ => (!c.isDigit) && (!hasDotMatch s)
  | _ => false

/-- Sentences joined by single spaces (the input shape of claim C4). -/
def joinBySpace : List (List Char) → List Char
  | [] => []
  | [s] => s
  | s :: r :: t => s ++ ' ' :: joinBySpace (r :: t)

/-- Sentences joined by single newlines (the output shape of claim C4:
one sentence per line, no trailing newline). -/
def joinByNewline : List (List Char) → List Char
  | [] => []
  | [s] => s
  | s :: r :: t => s ++ '\n' :: joinByNewline (r :: t)

/-- An image tag with the given `src` value, for claim C5. -/
def imgTagFor (p : List Char) : List Char :=
  '<' :: 'i' :: 'm' :: 'g' :: ' ' :: 's' :: 'r' :: 'c' :: '=' :: '"' :: (p ++ ['"', '>'])

/-- A sequence of image tags, for claim C5. -/
def joinImgTags : List (List Char) → List Char
  | [] => []
  | p :: r => imgTagFor p ++ joinImgTags r

/-- The capture `([^"]+)"` step of the amended claim C5's reference
scanner: the characters before the first `"` and the remainder after
it; `none` when no `"` follows. -/
def takeUntilQ : List Char → Option (List Char × List Char)
  | [] => none
  | c :: rest =>
    if c = '"' then some ([], rest)
    else
      match takeUntilQ rest with
      | some pr => some (c :: pr.1, pr.2)
      | none => none

/-- A `src="..."` attribute occurrence starting at the head of the
text: the literal `src="`, then a nonempty run of non-quote characters
captured as the value, then the closing quote; returns the value and
the text after the match. -/
def srcCapture? : List Char → Option (List Char × List Char)
  | 's' :: 'r' :: 'c' :: '=' :: '"' :: rest =>
    (match takeUntilQ rest with
     | some ([], _) => none
     | some (c :: v, r) => some (c :: v, r)
     | none => none)
  | _ => none

/-- The amended claim C5's reference extraction, by its words: scan the
text left to right; wherever a `src="..."` attribute occurrence starts,
collect its value (order of first appearance, duplicates retained) and
continue after its closing quote (leftmost, non-overlapping);
otherwise advance one character. -/
def specExtract (cs : List Char) : List (List Char) :=
  match cs with
  | [] => []
  | c :: rest =>
    match h : srcCapture? (c :: rest) with
    | some pr => pr.1 :: specExtract pr.2
    | none => specExtract rest
termination_by cs.length
decreasing_by
  · have hlen : ∀ (xs : List Char) (pr1 : List Char × List Char),
        takeUntilQ xs = some pr1 → pr1.2.length < xs.length := by
      intro xs
      induction xs with
      | nil => intro pr1 hx; exact absurd hx (by simp [takeUntilQ])
      | cons x xt ih =>
        intro pr1 hx
        rw [takeUntilQ] at hx
        by_cases hxq : x = '"'
        · rw [if_pos hxq] at hx
          injection hx with hx1
          rw [← hx1]
          simp
        · rw [if_neg hxq] at hx
          cases hrec : takeUntilQ xt with
          | none => rw [hrec] at hx; exact absurd hx (by simp)
          | some pr2 =>
            rw [hrec] at hx
            injection hx with hx1
            rw [← hx1]
            have := ih pr2 hrec
            simp only [List.length_cons]
            omega
    rw [srcCapture?.eq_def] at h
    split at h
    · rename_i rest0 heq
      cases htq : takeUntilQ rest0 with
      | none => rw [htq] at h; exact absurd h (by simp)
      | some pr1 =>
        rw [htq] at h
        obtain ⟨v, r⟩ := pr1
        cases v with
        | nil => simp at h
        | cons v0 vt =>
          simp only at h
          injection h with h1
          have hlt := hlen rest0 (v0 :: vt, r) htq
          rw [← h1]
          have hlen5 : (c :: rest).length = rest0.length + 5 := by rw [heq]; simp
          simp only [List.length_cons] at hlt hlen5 ⊢
          omega
    · exact absurd h (by simp)
  · simp

/-- The first `p` characters of the literal `src="`, the text consumed
by `imgGo` in scanning state `p`. -/
def srcTaken : Nat → List Char
  | 0 => []
  | 1 => ['s']
  | 2 => ['s', 'r']
  | 3 => ['s', 'r', 'c']
  | _ => ['s', 'r', 'c', '=']

/-- Claim C8's resource list: one entry per image, in image order, with
the running image index. -/
def resourcesLinesSpec (year : Nat) (fai : String) : Nat → List String → String
  | _, [] => ""
  | j, _ :: rest => resourceEntry year fai j ++ resourcesLinesSpec year fai (j + 1) rest

/-- Claim C8's trailing image markers: one per image, in image order. -/
def shortcodesSpec : Nat → List String → String
  | _, [] => ""
  | j, _ :: rest => imageShortcode j ++ shortcodesSpec (j + 1) rest

/-- Claim C8's rendering of an article with no images: placeholder
thumbnail, no `resources` key, no image markers. -/
def mdSpecNoImages (a : Article) : String :=
  "---\n" ++ "title: " ++ a.title ++ "\n" ++ "date: " ++ a.date ++ "\n"
    ++ "description: " ++ a.title ++ "\n"
    ++ "thumbnail: img/default.png\n" ++ "---\n\n" ++ a.text

/-- Claim C8's rendering of an article with images: thumbnail line, a
`resources` list with one entry per image, the body, one image marker
per image. -/
def mdSpecWithImages (a : Article) (year index : Nat) : String :=
  "---\n" ++ "title: " ++ a.title ++ "\n" ++ "date: " ++ a.date ++ "\n"
    ++ "description: " ++ a.title ++ "\n"
    ++ "thumbnail: img/einsaetze/" ++ natDecimal year ++ "/" ++ formatArticleIndex index
    ++ ".jpg\n" ++ "resources:\n"
    ++ resourcesLinesSpec year (formatArticleIndex index) 0 a.images
    ++ "---\n\n" ++ a.text ++ shortcodesSpec 0 a.images

/-! ## Concrete inputs used by witnesses and counterexamples -/

/-- An already-migrated year directory with article `0001` present but
article `0000`'s markdown deleted (the scenario of claim C3). -/
def stateC3 : FsState :=
  ⟨[["output", "content", "2021"],
    ["output", "content", "2021", "_index.md"],
    ["output", "content", "2021", "0001"],
    ["output", "content", "2021", "0001", "index.md"],
    ["output", "thumbnail", "2021"]]⟩

def articleA : Article :=
  { title := "A", date := "2021-01-02 10:00:00", text := "A text\n", images := [] }

def articleB : Article :=
  { title := "B", date := "2021-03-04 11:00:00", text := "B text\n", images := [] }

def yearC3 : YearArticles := { year := 2021, articles := [articleA, articleB] }

/-- A concrete article without images. -/
def articleNoImg : Article := { title := "T", date := "D", text := "B\n", images := [] }

/-- A concrete article with two images. -/
def articleTwoImgs : Article :=
  { title := "T", date := "D", text := "B\n", images := ["a.png", "b.gif"] }

/-- A concrete article with one image (for the thumbnail claims). -/
def articleOneImg : Article :=
  { title := "T", date := "2021-01-01 00:00:00", text := "B\n", images := ["img/x.jpg"] }

/-- A record whose `created` parses (year 2021) but whose `catid` is
not an integer. -/
def recBadCatid : RawRecord :=
  { created := some "2021-01-01 00:00:00", catid := some "xyz",
    title := some "T", introtext := some "I" }

/-- A record whose `created` does not parse. -/
def recBadDate : RawRecord :=
  { created := some "not-a-date", catid := some "5",
    title := some "T", introtext := some "I" }

/-- A record with no `created` field. -/
def recNoCreated : RawRecord :=
  { created := none, catid := some "5",
    title := some "T", introtext := some "I" }

/-- A record whose introtext has a `src="..."` attribute but no tag at
all (no `<` anywhere). -/
def recPlainSrc : RawRecord :=
  { created := some "2021-05-05 12:00:00", catid := some "5",
    title := some "T", introtext := some "see src=\"x.js\" here" }

/-- A record whose introtext has one `src` attribute inside an image
tag and a duplicate occurrence of the same value outside any tag. -/
def recDupSrc : RawRecord :=
  { created := some "2021-03-03 10:00:00", catid := some "5",
    title := some "T",
    introtext := some "<img src=\"a.jpg\"> and src=\"a.jpg\" again" }

/-- Concrete record set for the selector witness: three matches (two
with tied dates), one wrong year, one missing `created`, one wrong
category. -/
def recsW : List RawRecord :=
  [⟨some "2021-06-01 12:00:00", some "5", some "A", some "one."⟩,
   ⟨some "2021-05-01 12:00:00", some "5", some "B", some "two."⟩,
   ⟨some "2021-06-01 12:00:00", some "5", some "C", some "three."⟩,
   ⟨some "2020-01-01 00:00:00", some "5", some "D", some "x"⟩,
   ⟨none, some "5", some "E", some "x"⟩,
   ⟨some "2021-01-01 00:00:00", some "7", some "F", some "x"⟩]

/-- The bundle `get_articles` produces from `recsW` for year 2021,
category 5: sorted by date, the tied articles A and C in source
order. -/
def bundleW : YearArticles :=
  ⟨2021, [⟨"B", "2021-05-01 12:00:00", "two.", []⟩,
          ⟨"A", "2021-06-01 12:00:00", "one.", []⟩,
          ⟨"C", "2021-06-01 12:00:00", "three.", []⟩]⟩

/-- A one-article bundle and the legacy-asset-only state for the
naming-scheme witness. -/
def yaW6 : YearArticles := ⟨2021, [articleOneImg]⟩

def stW6 : FsState := ⟨[["website.old", "img/x.jpg"]]⟩

/-- The final state of running `write_articles` on `yaW6` from
`stW6`. -/
def stW6f : FsState :=
  ⟨[["output", "thumbnail", "2021", "0000.jpg"],
    ["output", "content", "2021", "0000", "img", "2021-0000-00.jpg"],
    ["output", "content", "2021", "0000", "img"],
    ["output", "content", "2021", "0000", "index.md"],
    ["output", "content", "2021", "0000"],
    ["output", "content", "2021", "_index.md"],
    ["output", "thumbnail", "2021"],
    ["output", "content", "2021"],
    ["website.old", "img/x.jpg"]]⟩

/-- The operation trace of running `write_articles` on `yaW6` from
`stW6`. -/
def opsW6 : List FsOp :=
  [FsOp.createDirAll ["output", "content", "2021"],
   FsOp.createDirAll ["output", "thumbnail", "2021"],
   FsOp.writeFile ["output", "content", "2021", "_index.md"] (seriesIndexContent 2021),
   FsOp.createDir ["output", "content", "2021", "0000"],
   FsOp.writeFile ["output", "content", "2021", "0000", "index.md"]
     (articleOneImg.toMarkdown 2021 0),
   FsOp.createDir ["output", "content", "2021", "0000", "img"],
   FsOp.copyFile ["website.old", "img/x.jpg"]
     ["output", "content", "2021", "0000", "img", "2021-0000-00.jpg"],
   FsOp.copyFile ["website.old", "img/x.jpg"] ["output", "thumbnail", "2021", "0000.jpg"]]

end FFConv

namespace FFConv

/-! # Theorems

Infrastructure lemmas first, then one theorem per claim (with witness
or counterexample theorems where required). -/

theorem digitVal_digitChar (d : Nat) (h : d < 10) : digitVal (digitChar d) = d := by
  interval_cases d <;> rfl

theorem specDigits_lt10 {n : Nat} (h : n < 10) : specDigits n = [digitChar n] := by
  rw [specDigits, if_pos h]

theorem specDigits_ge10 {n : Nat} (h : ¬ n < 10) :
    specDigits n = specDigits (n / 10) ++ [digitChar (n % 10)] := by
  rw [specDigits]
  exact if_neg h

theorem natDigitsAux_eq_specDigits :
    ∀ (fuel n : Nat) (acc : List Char), n < 10 ^ (fuel + 1) →
      natDigitsAux (fuel + 1) n acc = specDigits n ++ acc := by
  intro fuel
  induction fuel with
  | zero =>
    intro n acc h
    have h10 : n < 10 := by simpa using h
    rw [natDigitsAux]
    simp only [if_pos h10]
    rw [specDigits_lt10 h10, Nat.mod_eq_of_lt h10]
    rfl
  | succ f ih =>
    intro n acc h
    rw [natDigitsAux]
    by_cases h10 : n < 10
    · simp only [if_pos h10]
      rw [specDigits_lt10 h10, Nat.mod_eq_of_lt h10]
      rfl
    · simp only [if_neg h10]
      have hdiv : n / 10 < 10 ^ (f + 1) := by
        have hp : n < 10 * 10 ^ (f + 1) := by
          have := h
          rw [pow_succ, Nat.mul_comm] at this
          exact this
        omega
      rw [ih (n / 10) _ hdiv, specDigits_ge10 h10]
      simp

theorem natDecimal_data (n : Nat) : (natDecimal n).data = specDigits n := by
  have h : n < 10 ^ (n + 1) := by
    calc n < 10 ^ n := Nat.lt_pow_self (by omega) n
    _ ≤ 10 ^ (n + 1) := Nat.pow_le_pow_right (by omega) (by omega)
  rw [natDecimal, natDigitsAux_eq_specDigits n n [] h]
  simp

theorem decimalValue_specDigits (n : Nat) : decimalValue (specDigits n) = n := by
  induction n using Nat.strong_induction_on with
  | _ n ih =>
    by_cases h10 : n < 10
    · rw [specDigits_lt10 h10]
      simp [decimalValue, digitVal_digitChar n h10]
    · rw [specDigits_ge10 h10]
      have hlt : n / 10 < n := Nat.div_lt_self (by omega) (by omega)
      have hv := ih (n / 10) hlt
      rw [decimalValue, List.foldl_append]
      rw [decimalValue] at hv
      rw [hv]
      simp only [List.foldl_cons, List.foldl_nil]
      rw [digitVal_digitChar (n % 10) (Nat.mod_lt n (by omega))]
      omega

theorem decimalValue_replicate_zero (k : Nat) (cs : List Char) :
    decimalValue (List.replicate k '0' ++ cs) = decimalValue cs := by
  induction k with
  | zero => simp
  | succ m ih =>
    rw [List.replicate_succ, List.cons_append, decimalValue, List.foldl_cons]
    have h0 : (10 * 0 + digitVal '0') = 0 := by rfl
    rw [h0]
    exact ih

theorem decimalValue_padZero_natDecimal (w n : Nat) :
    decimalValue (padZero w (natDecimal n)).data = n := by
  rw [padZero]
  simp only [String.data]
  rw [decimalValue_replicate_zero, natDecimal_data, decimalValue_specDigits]

theorem formatArticleIndex_injective {m n : Nat}
    (h : formatArticleIndex m = formatArticleIndex n) : m = n := by
  have hm : decimalValue (formatArticleIndex m).data = m := decimalValue_padZero_natDecimal 4 m
  have hn : decimalValue (formatArticleIndex n).data = n := decimalValue_padZero_natDecimal 4 n
  rw [h] at hm
  omega

/-- Counterexample to claim C3: the year directory exists and article
`0000`'s markdown file was deleted, yet rerunning the pipeline performs
no operation at all — in particular it does not recreate that
article's files, contradicting the claim that exactly the deleted
article's files are recreated. -/
theorem claim3_cex :
    yearC3.writeArticles stateC3 outputDir = Except.ok (stateC3, []) ∧
      (["output", "content", "2021", "0000", "index.md"] : FsPath) ∉ stateC3.paths ∧
      yearC3.articles ≠ [] := by
  refine ⟨rfl, by decide, by decide⟩

/-- Claim C3 as amended: when the year's content directory exists at
run start, the year-level skip dominates — the run performs no
filesystem operation and recreates nothing, even if individual article
files were deleted; the per-article existence check only takes effect
in a run that started with the year directory absent. -/
theorem claim3_amended (ya : YearArticles) (st : FsState) (out : FsPath)
    (st2 : FsState) (ops : List FsOp)
    (h : joinPath (joinPath out "content") (natDecimal ya.year) ∈ st.paths)
    (hrun : ya.writeArticles st out = Except.ok (st2, ops)) :
    st2 = st ∧ ops = [] := by
  rw [YearArticles.writeArticles] at hrun
  simp only [h, if_pos] at hrun
  injection hrun with hp
  injection hp with ha hb
  exact ⟨ha.symm, hb.symm⟩

/-- Witness for the amended claim C3 at the concrete deleted-article
state. -/
theorem claim3_amended_witness : stateC3 = stateC3 ∧ ([] : List FsOp) = [] :=
  claim3_amended yearC3 stateC3 outputDir stateC3 [] (by decide) rfl

/-- Claim C10: a year whose content directory does not exist and whose
selected bundle is empty still gets both the `content/{year}` and
`thumbnail/{year}` directories created, but no `_index.md` year index
and no article files are written. -/
theorem claim10_empty_bundle (y : Nat) (st : FsState) (out : FsPath)
    (h : joinPath (joinPath out "content") (natDecimal y) ∉ st.paths) :
    YearArticles.writeArticles ⟨y, []⟩ st out =
      Except.ok
        ((st.add (joinPath (joinPath out "content") (natDecimal y))).add
            (joinPath (joinPath out "thumbnail") (natDecimal y)),
          [FsOp.createDirAll (joinPath (joinPath out "content") (natDecimal y)),
           FsOp.createDirAll (joinPath (joinPath out "thumbnail") (natDecimal y))]) ∧
      ∀ (p : FsPath) (c : String),
        FsOp.writeFile p c ∉
          [FsOp.createDirAll (joinPath (joinPath out "content") (natDecimal y)),
           FsOp.createDirAll (joinPath (joinPath out "thumbnail") (natDecimal y))] := by
  constructor
  · rw [YearArticles.writeArticles]
    simp only [h, if_neg]
    rfl
  · intro p c
    simp

/-- Witness for claim C10 on an empty filesystem. -/
theorem claim10_empty_bundle_witness :
    YearArticles.writeArticles ⟨2021, []⟩ ⟨[]⟩ ["output"] =
      Except.ok
        ((FsState.add (FsState.add ⟨[]⟩ ["output", "content", "2021"])
            ["output", "thumbnail", "2021"]),
          [FsOp.createDirAll ["output", "content", "2021"],
           FsOp.createDirAll ["output", "thumbnail", "2021"]]) := by
  have h : joinPath (joinPath ["output"] "content") (natDecimal 2021) ∉
      (⟨[]⟩ : FsState).paths := by decide
  have := (claim10_empty_bundle 2021 ⟨[]⟩ ["output"] h).1
  simpa using this

theorem toMarkdown_foldl_range (year : Nat) (fai : String) :
    ∀ (l : List String) (j : Nat) (s1 s2 : String),
      (List.range' j l.length).foldl
          (fun (acc : String × String) (k : Nat) =>
            (acc.1 ++ resourceEntry year fai k, acc.2 ++ imageShortcode k)) (s1, s2) =
        (s1 ++ resourcesLinesSpec year fai j l, s2 ++ shortcodesSpec j l) := by
  intro l
  induction l with
  | nil =>
    intro j s1 s2
    simp [resourcesLinesSpec, shortcodesSpec, String.append_empty]
  | cons a t ih =>
    intro j s1 s2
    rw [List.length_cons, List.range'_succ, List.foldl_cons, ih (j + 1)]
    rw [resourcesLinesSpec, shortcodesSpec]
    simp [String.append_assoc]

theorem toMarkdown_eq_noImages (a : Article) (year index : Nat) (h : a.images = []) :
    a.toMarkdown year index = mdSpecNoImages a := by
  rw [Article.toMarkdown, mdSpecNoImages]
  simp only [h, List.isEmpty_nil, if_pos]
  simp [String.append_assoc]

theorem toMarkdown_eq_withImages (a : Article) (year index : Nat) (h : a.images ≠ []) :
    a.toMarkdown year index = mdSpecWithImages a year index := by
  rw [Article.toMarkdown, mdSpecWithImages]
  have hne : a.images.isEmpty = false := by
    cases him : a.images with
    | nil => exact absurd him h
    | cons x xs => rfl
  simp only [hne, Bool.false_eq_true, if_neg, if_false]
  rw [List.range_eq_range', toMarkdown_foldl_range]
  simp only [String.append_assoc, String.empty_append]

/-- Claim C8: an article with zero images renders with the fixed
placeholder thumbnail and no `resources` section and no image markers;
an article with images renders a `resources` list with exactly one
entry `name: img-{j}, src: img/{year}-{i}-{j}.jpg` per image in image
order, and the body is followed by one image marker per image in the
same order. -/
theorem claim8_markdown (a : Article) (year index : Nat) :
    (a.images = [] → a.toMarkdown year index = mdSpecNoImages a) ∧
      (a.images ≠ [] → a.toMarkdown year index = mdSpecWithImages a year index) :=
  ⟨toMarkdown_eq_noImages a year index, toMarkdown_eq_withImages a year index⟩

/-- Witness for claim C8, instantiating both branches at concrete
articles (one without and one with images). -/
theorem claim8_markdown_witness :
    (articleNoImg.toMarkdown 2021 0 = mdSpecNoImages articleNoImg) ∧
      (articleTwoImgs.toMarkdown 2021 2 = mdSpecWithImages articleTwoImgs 2021 2) := by
  constructor
  · exact (claim8_markdown articleNoImg 2021 0).1 rfl
  · exact (claim8_markdown articleTwoImgs 2021 2).2 (by decide)

/-- Counterexample to claim C7: for an article with one image at index
0 of year 2021, the rendered front matter does not reference the
thumbnail path `thumbnail/2021/0000.jpg` anywhere — it references
`img/einsaetze/2021/0000.jpg` instead — even though the thumbnail file
itself is copied to `output/thumbnail/2021/0000.jpg`. -/
theorem claim7_cex :
    occursIn "thumbnail/2021/0000.jpg".data (articleOneImg.toMarkdown 2021 0).data = false ∧
      occursIn "thumbnail: img/einsaetze/2021/0000.jpg\n".data
          (articleOneImg.toMarkdown 2021 0).data = true ∧
      copyThumbnailFs 2021 ["output", "thumbnail", "2021"]
          ⟨[["website.old", "img/x.jpg"]]⟩ articleOneImg 0 =
        Except.ok
          (⟨[["output", "thumbnail", "2021", "0000.jpg"], ["website.old", "img/x.jpg"]]⟩,
            [FsOp.copyFile ["website.old", "img/x.jpg"]
              ["output", "thumbnail", "2021", "0000.jpg"]]) := by
  refine ⟨by decide, by decide, rfl⟩

/-- Claim C7 as amended: for an article with at least one image, the
front matter's `thumbnail` field references
`img/einsaetze/{year}/{index}.jpg`, while the thumbnail file copied
from the article's first image is placed at
`{thumbnailDir}/{index}.jpg` (i.e. `thumbnail/{year}/{index}.jpg`
under the output root) — two different paths. -/
theorem claim7_amended (a : Article) (year index : Nat) (img : String)
    (rest : List String) (h : a.images = img :: rest) (st : FsState) (thumbDir : FsPath)
    (hsrc : joinPath oldWebsiteDir img ∈ st.paths) :
    (∃ s1 s2, a.toMarkdown year index =
        s1 ++ ("thumbnail: img/einsaetze/" ++ natDecimal year ++ "/"
          ++ formatArticleIndex index ++ ".jpg\n") ++ s2) ∧
      copyThumbnailFs year thumbDir st a index =
        Except.ok (st.add (joinPath thumbDir (formatArticleIndex index ++ ".jpg")),
          [FsOp.copyFile (joinPath oldWebsiteDir img)
            (joinPath thumbDir (formatArticleIndex index ++ ".jpg"))]) := by
  constructor
  · refine ⟨"---\n" ++ "title: " ++ a.title ++ "\n" ++ "date: " ++ a.date ++ "\n"
      ++ "description: " ++ a.title ++ "\n",
      "resources:\n" ++ resourcesLinesSpec year (formatArticleIndex index) 0 a.images
        ++ "---\n\n" ++ a.text ++ shortcodesSpec 0 a.images, ?_⟩
    rw [toMarkdown_eq_withImages a year index (by rw [h]; exact List.cons_ne_nil img rest)]
    rw [mdSpecWithImages]
    simp only [String.append_assoc]
  · rw [copyThumbnailFs, h]
    simp only [List.head?_cons]
    simp only [hsrc, if_pos]

/-- Witness for the amended claim C7 at the concrete one-image
article. -/
theorem claim7_amended_witness :
    (∃ s1 s2, articleOneImg.toMarkdown 2021 0 =
        s1 ++ ("thumbnail: img/einsaetze/" ++ natDecimal 2021 ++ "/"
          ++ formatArticleIndex 0 ++ ".jpg\n") ++ s2) ∧
      copyThumbnailFs 2021 ["output", "thumbnail", "2021"]
          ⟨[["website.old", "img/x.jpg"]]⟩ articleOneImg 0 =
        Except.ok
          ((FsState.add ⟨[["website.old", "img/x.jpg"]]⟩
              (joinPath ["output", "thumbnail", "2021"] (formatArticleIndex 0 ++ ".jpg"))),
            [FsOp.copyFile (joinPath oldWebsiteDir "img/x.jpg")
              (joinPath ["output", "thumbnail", "2021"] (formatArticleIndex 0 ++ ".jpg"))]) :=
  claim7_amended articleOneImg 2021 0 "img/x.jpg" [] rfl
    ⟨[["website.old", "img/x.jpg"]]⟩ ["output", "thumbnail", "2021"] (by decide)

/-- Counterexample to claim C9: a record with `created` and `catid`
both present as strings and `catid` unparseable does not abort the run
when the parsed creation year differs from the selected year — the
`&&` short-circuit skips the `catid` parse and the record is merely
excluded. -/
theorem claim9_cex :
    recBadCatid.created = some "2021-01-01 00:00:00" ∧
      recBadCatid.catid = some "xyz" ∧
      parseU32 "xyz" = none ∧
      getArticles [recBadCatid] 2020 5 = Except.ok { year := 2020, articles := [] } := by
  refine ⟨rfl, rfl, rfl, ?_⟩
  rw [getArticles]
  have h1 : selectAndMap 2020 5 [recBadCatid] = Except.ok [] := rfl
  rw [h1]
  simp [List.mergeSort]

/-- Claim C9 as amended: for a record with both fields present as
strings, an unparseable `created` always aborts the run; an
unparseable `catid` aborts exactly when the parsed creation year (cast
to `u32`) equals the selected year — if the year differs, the record is
merely excluded (the `&&` short-circuit never parses `catid`) and the
run continues as if the record were absent; and a record with either
field absent is likewise excluded, not an error. -/
theorem claim9_amended (r : RawRecord) (rest : List RawRecord) (year catid : Nat) :
    (∀ d k, r.created = some d → r.catid = some k → parseDateTime d = none →
      ∃ e, getArticles (r :: rest) year catid = Except.error e) ∧
    (∀ d k dt, r.created = some d → r.catid = some k → parseDateTime d = some dt →
      yearAsU32 dt.year = year → parseU32 k = none →
      ∃ e, getArticles (r :: rest) year catid = Except.error e) ∧
    (∀ d k dt, r.created = some d → r.catid = some k → parseDateTime d = some dt →
      yearAsU32 dt.year ≠ year → parseU32 k = none →
      getArticles (r :: rest) year catid = getArticles rest year catid) ∧
    (r.created = none ∨ r.catid = none →
      getArticles (r :: rest) year catid = getArticles rest year catid) := by
  obtain ⟨rc, rk, rt, ri⟩ := r
  refine ⟨?_, ?_, ?_, ?_⟩
  · intro d k hc hk hbad
    simp only at hc hk
    subst hc
    subst hk
    refine ⟨"called `Result::unwrap()` on an `Err` value (date)", ?_⟩
    rw [getArticles, selectAndMap, selectRecord]
    simp only [hbad]
  · intro d k dt hc hk hdt hyear hbadk
    simp only at hc hk
    subst hc
    subst hk
    refine ⟨"called `Result::unwrap()` on an `Err` value (catid)", ?_⟩
    rw [getArticles, selectAndMap, selectRecord]
    simp only [hdt, if_pos hyear, hbadk]
  · intro d k dt hc hk hdt hyear hbadk
    simp only at hc hk
    subst hc
    subst hk
    rw [getArticles, selectAndMap, selectRecord]
    simp only [hdt, if_neg hyear]
    rw [getArticles]
  · intro hmiss
    rcases hmiss with hm | hm
    · simp only at hm
      subst hm
      rw [getArticles, selectAndMap, selectRecord]
      rw [getArticles]
    · simp only at hm
      subst hm
      rcases rc with _ | d
      · rw [getArticles, selectAndMap, selectRecord]
        rw [getArticles]
      · rw [getArticles, selectAndMap, selectRecord]
        rw [getArticles]

/-- Witness for the amended claim C9: the bad-date record aborts; the
bad-catid record aborts at the matching year 2021 but is silently
excluded at year 2020; a record with no `created` is excluded without
error. -/
theorem claim9_amended_witness :
    (∃ e, getArticles [recBadDate] 2021 5 = Except.error e) ∧
      (∃ e, getArticles [recBadCatid] 2021 5 = Except.error e) ∧
      getArticles [recBadCatid] 2020 5 = getArticles [] 2020 5 ∧
      getArticles [recNoCreated] 2021 5 = getArticles [] 2021 5 := by
  refine ⟨?_, ?_, ?_, ?_⟩
  · exact (claim9_amended recBadDate [] 2021 5).1 "not-a-date" "5" rfl rfl rfl
  · exact (claim9_amended recBadCatid [] 2021 5).2.1 "2021-01-01 00:00:00" "xyz"
      { year := 2021, month := 1, day := 1, hour := 0, minute := 0, second := 0 }
      rfl rfl rfl (by decide) rfl
  · exact (claim9_amended recBadCatid [] 2020 5).2.2.1 "2021-01-01 00:00:00" "xyz"
      { year := 2021, month := 1, day := 1, hour := 0, minute := 0, second := 0 }
      rfl rfl rfl (by decide) rfl
  · exact (claim9_amended recNoCreated [] 2021 5).2.2.2 (Or.inl rfl)

theorem hasDotMatch_tail {c : Char} {l : List Char}
    (h : hasDotMatch (c :: l) = false) : hasDotMatch l = false := by
  match l with
  | [] => rfl
  | [b] => rfl
  | b :: w :: t =>
    rw [show hasDotMatch (c :: b :: w :: t) =
        ((decide (b = '.') && !c.isDigit && isWsChar w) || hasDotMatch (b :: w :: t))
      from rfl] at h
    exact (Bool.or_eq_false_iff.mp h).2

theorem dotNewline_cons_ne (c b : Char) (rest : List Char) (hb : b ≠ '.') :
    dotNewline (c :: b :: rest) = c :: dotNewline (b :: rest) := by
  rw [dotNewline.eq_def]
  split
  · rename_i heq
    injection heq with h1 h2
    injection h2 with h3 h4
    exact absurd h3 hb
  · rename_i heq
    injection heq with h1 h2
    rw [← h1, ← h2]
  · rename_i heq
    exact absurd heq (by simp)

theorem dotNewline_two (c : Char) : dotNewline [c, '.'] = [c, '.'] := by
  rw [dotNewline.eq_def]
  split
  · rename_i heq
    injection heq with h1 h2
    injection h2 with h3 h4
    exact absurd h4 (by simp)
  · rename_i heq
    injection heq with h1 h2
    rw [← h1, ← h2]
    rfl
  · rename_i heq
    exact absurd heq (by simp)

theorem dotNewline_of_no_match :
    ∀ {cs : List Char}, hasDotMatch cs = false → dotNewline cs = cs := by
  intro cs
  induction cs with
  | nil => intro _; rfl
  | cons c l ih =>
    intro h
    match l, h with
    | [], _ => rfl
    | [b], h =>
      by_cases hb : b = '.'
      · subst hb
        exact dotNewline_two c
      · rw [dotNewline_cons_ne c b [] hb]
        rfl
    | b :: w :: t, h =>
      have htail : hasDotMatch (b :: w :: t) = false := hasDotMatch_tail h
      by_cases hb : b = '.'
      · subst hb
        rw [show hasDotMatch (c :: '.' :: w :: t) =
            ((decide (('.' : Char) = '.') && !c.isDigit && isWsChar w)
              || hasDotMatch ('.' :: w :: t)) from rfl] at h
        have hq := (Bool.or_eq_false_iff.mp h).1
        rw [show dotNewline (c :: '.' :: w :: t) =
            (if ¬ c.isDigit ∧ isWsChar w then c :: '.' :: '\n' :: dotNewline t
             else c :: dotNewline ('.' :: w :: t)) from rfl]
        have hq2 : ¬ (¬ c.isDigit ∧ isWsChar w) := by
          intro ⟨h1, h2⟩
          simp [h1, h2] at hq
        rw [if_neg hq2, ih htail]
      · rw [dotNewline_cons_ne c b (w :: t) hb, ih htail]

theorem dotNewline_sentence_step :
    ∀ (t : List Char) (c : Char), (¬ c.isDigit = true) →
      hasDotMatch (t ++ [c, '.']) = false →
      ∀ (w : Char), isWsChar w = true → ∀ (rest : List Char),
        dotNewline (t ++ c :: '.' :: w :: rest) = t ++ c :: '.' :: '\n' :: dotNewline rest := by
  intro t
  induction t with
  | nil =>
    intro c hc hm w hw rest
    simp only [List.nil_append]
    rw [show dotNewline (c :: '.' :: w :: rest) =
        (if ¬ c.isDigit ∧ isWsChar w then c :: '.' :: '\n' :: dotNewline rest
         else c :: dotNewline ('.' :: w :: rest)) from rfl]
    rw [if_pos ⟨hc, hw⟩]
  | cons x xs ih =>
    intro c hc hm w hw rest
    cases xs with
    | nil =>
      simp only [List.cons_append, List.nil_append] at hm ⊢
      by_cases hc2 : c = '.'
      · subst hc2
        rw [show dotNewline (x :: '.' :: '.' :: w :: rest) =
            (if ¬ x.isDigit ∧ isWsChar '.' then x :: '.' :: '\n' :: dotNewline (w :: rest)
             else x :: dotNewline ('.' :: '.' :: w :: rest)) from rfl]
        rw [if_neg (by simp [isWsChar])]
        have hstep := ih '.' (by decide) rfl w hw rest
        simp only [List.nil_append] at hstep
        rw [hstep]
      · rw [dotNewline_cons_ne x c ('.' :: w :: rest) hc2]
        have hstep := ih c hc rfl w hw rest
        simp only [List.nil_append] at hstep
        rw [hstep]
    | cons y ts =>
      by_cases hy : y = '.'
      · subst hy
        cases ts with
        | nil =>
          simp only [List.cons_append, List.nil_append] at hm ⊢
          have hq : ¬ (¬ x.isDigit = true ∧ isWsChar c = true) := by
            intro hcon
            rw [show hasDotMatch [x, '.', c, '.'] =
                ((decide (('.' : Char) = '.') && !x.isDigit && isWsChar c)
                  || hasDotMatch ['.', c, '.']) from rfl] at hm
            simp [hcon.1, hcon.2] at hm
          rw [show dotNewline (x :: '.' :: c :: '.' :: w :: rest) =
              (if ¬ x.isDigit ∧ isWsChar c then
                 x :: '.' :: '\n' :: dotNewline ('.' :: w :: rest)
               else x :: dotNewline ('.' :: c :: '.' :: w :: rest)) from rfl]
          rw [if_neg hq]
          have hstep := ih c hc (hasDotMatch_tail hm) w hw rest
          simp only [List.cons_append, List.nil_append] at hstep
          rw [hstep]
        | cons z tss =>
          simp only [List.cons_append] at hm ⊢
          have hq : ¬ (¬ x.isDigit = true ∧ isWsChar z = true) := by
            intro hcon
            rw [show hasDotMatch (x :: '.' :: z :: (tss ++ [c, '.'])) =
                ((decide (('.' : Char) = '.') && !x.isDigit && isWsChar z)
                  || hasDotMatch ('.' :: z :: (tss ++ [c, '.']))) from rfl] at hm
            simp [hcon.1, hcon.2] at hm
          rw [show dotNewline (x :: '.' :: z :: (tss ++ c :: '.' :: w :: rest)) =
              (if ¬ x.isDigit ∧ isWsChar z then
                 x :: '.' :: '\n' :: dotNewline (tss ++ c :: '.' :: w :: rest)
               else x :: dotNewline ('.' :: z :: (tss ++ c :: '.' :: w :: rest))) from rfl]
          rw [if_neg hq]
          have hstep := ih c hc (hasDotMatch_tail hm) w hw rest
          simp only [List.cons_append] at hstep
          rw [hstep]
      · simp only [List.cons_append] at hm ⊢
        rw [dotNewline_cons_ne x y (ts ++ c :: '.' :: w :: rest) hy]
        have hstep := ih c hc (hasDotMatch_tail hm) w hw rest
        simp only [List.cons_append] at hstep
        rw [hstep]

theorem sentenceOk_shape {s : List Char} (h : sentenceOk s = true) :
    ∃ t0 c, s = t0 ++ [c, '.'] ∧ (¬ c.isDigit = true) ∧ hasDotMatch s = false := by
  rw [sentenceOk] at h
  split at h
  · rename_i c t0 heq
    have hs : s = t0.reverse ++ [c, '.'] := by
      have hrr := congrArg List.reverse heq
      rw [List.reverse_reverse] at hrr
      rw [hrr]
      simp
    rw [Bool.and_eq_true] at h
    refine ⟨t0.reverse, c, hs, ?_, ?_⟩
    · simpa using h.1
    · simpa using h.2
  · exact absurd h (by simp)

theorem stripGo_none_cons_ne (c : Char) (rest : List Char) (hc : c ≠ '<') :
    stripGo none (c :: rest) = c :: stripGo none rest := by
  rw [stripGo.eq_def]
  split <;> simp_all

theorem stripTags_id : ∀ {cs : List Char}, '<' ∉ cs → stripTags cs = cs := by
  intro cs
  induction cs with
  | nil => intro _; rfl
  | cons c rest ih =>
    intro h
    have hc : c ≠ '<' := fun he => h (he ▸ List.mem_cons_self c rest)
    rw [stripTags, stripGo_none_cons_ne c rest hc]
    rw [show stripGo none rest = stripTags rest from rfl,
      ih (fun hm => h (List.mem_cons_of_mem c hm))]

theorem crlfToLf_cons_ne (c : Char) (rest : List Char) (hc : c ≠ '\r') :
    crlfToLf (c :: rest) = c :: crlfToLf rest := by
  rw [crlfToLf.eq_def]
  split <;> simp_all

theorem crlfToLf_id : ∀ {cs : List Char}, '\r' ∉ cs → crlfToLf cs = cs := by
  intro cs
  induction cs with
  | nil => intro _; rfl
  | cons c rest ih =>
    intro h
    have hc : c ≠ '\r' := fun he => h (he ▸ List.mem_cons_self c rest)
    rw [crlfToLf_cons_ne c rest hc, ih (fun hm => h (List.mem_cons_of_mem c hm))]

theorem removeNbsp_id {cs : List Char} (h : '\u00A0' ∉ cs) : removeNbsp cs = cs := by
  rw [removeNbsp]
  apply List.filter_eq_self.mpr
  intro a ha
  have hne : a ≠ '\u00A0' := by
    intro he
    rw [he] at ha
    exact h ha
  simp [hne]

theorem stripLeadingNewlines_cons_ne (c : Char) (rest : List Char) (hc : c ≠ '\n') :
    stripLeadingNewlines (c :: rest) = c :: rest := by
  rw [stripLeadingNewlines.eq_def]
  split <;> simp_all

theorem dotNewline_joinBySpace :
    ∀ (ss : List (List Char)), (∀ s ∈ ss, sentenceOk s = true) →
      dotNewline (joinBySpace ss) = joinByNewline ss := by
  intro ss
  induction ss with
  | nil => intro _; rfl
  | cons s rest ih =>
    intro hs
    cases rest with
    | nil =>
      obtain ⟨t0, c, hsh, hc, hnm⟩ := sentenceOk_shape (hs s (List.mem_cons_self s _))
      rw [show joinBySpace [s] = s from rfl, show joinByNewline [s] = s from rfl]
      exact dotNewline_of_no_match hnm
    | cons r t =>
      obtain ⟨t0, c, hsh, hc, hnm⟩ := sentenceOk_shape (hs s (List.mem_cons_self s _))
      rw [show joinBySpace (s :: r :: t) = s ++ ' ' :: joinBySpace (r :: t) from rfl]
      rw [show joinByNewline (s :: r :: t) = s ++ '\n' :: joinByNewline (r :: t) from rfl]
      rw [hsh] at hnm ⊢
      rw [List.append_assoc]
      simp only [List.cons_append, List.nil_append]
      rw [dotNewline_sentence_step t0 c hc hnm ' ' (by decide) (joinBySpace (r :: t))]
      rw [ih (fun x hx => hs x (List.mem_cons_of_mem s hx))]
      simp

/-- Counterexample to claim C4.  First, in `"x. . y"` the second
period is followed by whitespace and preceded by a space (a
non-digit), so the claim requires a newline after it; the code leaves
it alone because the replacement scans left-to-right without overlap
and the first match `"x. "` consumes the space that precedes the
second period.  Second, the claim's own example: the output is
`"Hello world.\n3.14 is pi."` — the final sentence is not followed by
a newline, so the two claimed lines `"Hello world.\n"` and
`"3.14 is pi.\n"` do not concatenate to the actual output. -/
theorem claim4_cex :
    normalizeText "x. . y" = "x.\n. y" ∧
      ("x.\n. y" : String) ≠ "x.\n.\ny" ∧
      normalizeText "Hello world. 3.14 is pi." = "Hello world.\n3.14 is pi." ∧
      ("Hello world.\n3.14 is pi." : String) ≠ "Hello world.\n" ++ "3.14 is pi.\n" :=
  ⟨rfl, by decide, rfl, by decide⟩

/-- Claim C4 as amended: normalisation replaces each leftmost,
non-overlapping occurrence of (non-digit, period, whitespace) by
(non-digit, period, newline).  For text made of sentences — each
ending in a non-digit followed by a period, containing no terminator
pattern internally, not beginning with a newline — joined by single
spaces and free of markup, the result is exactly the sentences joined
by single newlines, with no newline after the last sentence and no
split at a decimal point (a period preceded by a digit never ends a
sentence here).  A qualifying period whose preceding character was
already consumed by the previous match is not split. -/
theorem claim4_amended (ss : List (List Char)) (hok : ∀ s ∈ ss, sentenceOk s = true)
    (h1 : '<' ∉ joinBySpace ss) (h2 : '\u00A0' ∉ joinBySpace ss)
    (h3 : '\r' ∉ joinBySpace ss) (h4 : ∀ s ∈ ss, s.head? ≠ some '\n') :
    normalizeChars (joinBySpace ss) = joinByNewline ss := by
  rw [normalizeChars, stripTags_id h1, removeNbsp_id h2, crlfToLf_id h3,
    dotNewline_joinBySpace ss hok]
  cases ss with
  | nil => rfl
  | cons s rest =>
    obtain ⟨t0, c, hsh, _, _⟩ := sentenceOk_shape (hok s (List.mem_cons_self s _))
    have hne : s ≠ [] := by rw [hsh]; simp
    obtain ⟨hd, tl, hsd⟩ : ∃ hd tl, s = hd :: tl := by
      cases s with
      | nil => exact absurd rfl hne
      | cons a b => exact ⟨a, b, rfl⟩
    have hhd : hd ≠ '\n' := by
      intro he
      apply h4 s (List.mem_cons_self s _)
      rw [hsd, he]
      rfl
    cases rest with
    | nil =>
      rw [show joinByNewline [s] = s from rfl, hsd]
      exact stripLeadingNewlines_cons_ne hd tl hhd
    | cons r t =>
      rw [show joinByNewline (s :: r :: t) = s ++ '\n' :: joinByNewline (r :: t) from rfl, hsd]
      simp only [List.cons_append]
      exact stripLeadingNewlines_cons_ne hd _ hhd

/-- Witness for the amended claim C4 at the claim's own example. -/
theorem claim4_amended_witness :
    normalizeChars (joinBySpace ["Hello world.".data, "3.14 is pi.".data]) =
      joinByNewline ["Hello world.".data, "3.14 is pi.".data] :=
  claim4_amended ["Hello world.".data, "3.14 is pi.".data]
    (by decide) (by decide) (by decide) (by decide) (by decide)

theorem imgGo_cap_cons_ne (racc : List Char) (c : Char) (rest : List Char) (hc : c ≠ '"') :
    imgGo (Sum.inr racc) (c :: rest) = imgGo (Sum.inr (c :: racc)) rest := by
  rw [imgGo.eq_def]
  split <;> simp_all

theorem imgGo_cap_closes :
    ∀ (p racc : List Char), '"' ∉ p → racc ≠ [] → ∀ (rest : List Char),
      imgGo (Sum.inr racc) (p ++ '"' :: rest) =
        (racc.reverse ++ p) :: imgGo (Sum.inl 0) rest := by
  intro p
  induction p with
  | nil =>
    intro racc _ hr rest
    simp only [List.nil_append, List.append_nil]
    rw [show imgGo (Sum.inr racc) ('"' :: rest) =
        (if racc.isEmpty then imgGo (Sum.inl 0) rest
         else racc.reverse :: imgGo (Sum.inl 0) rest) from rfl]
    rw [if_neg (by simpa using hr)]
  | cons c p ih =>
    intro racc hq hr rest
    have hc : c ≠ '"' := fun he => hq (he ▸ List.mem_cons_self c p)
    simp only [List.cons_append]
    rw [imgGo_cap_cons_ne racc c (p ++ '"' :: rest) hc]
    rw [ih (c :: racc) (fun hm => hq (List.mem_cons_of_mem c hm)) (by simp) rest]
    simp

theorem imgGo_scan_tags :
    ∀ (ps : List (List Char)), (∀ p ∈ ps, p ≠ [] ∧ '"' ∉ p) →
      imgGo (Sum.inl 0) (joinImgTags ps) = ps := by
  intro ps
  induction ps with
  | nil => intro _; rfl
  | cons p pt ih =>
    intro h
    obtain ⟨hne, hq⟩ := h p (List.mem_cons_self p pt)
    rw [show joinImgTags (p :: pt) = imgTagFor p ++ joinImgTags pt from rfl, imgTagFor]
    simp only [List.cons_append, List.append_assoc, List.cons_append, List.nil_append]
    rw [show imgGo (Sum.inl 0)
        ('<' :: 'i' :: 'm' :: 'g' :: ' ' :: 's' :: 'r' :: 'c' :: '=' :: '"' ::
          (p ++ '"' :: '>' :: joinImgTags pt)) =
        imgGo (Sum.inr []) (p ++ '"' :: '>' :: joinImgTags pt) from rfl]
    obtain ⟨c, p1, hp⟩ : ∃ c p1, p = c :: p1 := by
      cases p with
      | nil => exact absurd rfl hne
      | cons a b => exact ⟨a, b, rfl⟩
    subst hp
    have hc : c ≠ '"' := fun he => hq (he ▸ List.mem_cons_self c p1)
    simp only [List.cons_append]
    rw [imgGo_cap_cons_ne [] c (p1 ++ '"' :: '>' :: joinImgTags pt) hc]
    rw [imgGo_cap_closes p1 [c] (fun hm => hq (List.mem_cons_of_mem c hm)) (by simp)
      ('>' :: joinImgTags pt)]
    rw [show imgGo (Sum.inl 0) ('>' :: joinImgTags pt) = imgGo (Sum.inl 0) (joinImgTags pt)
      from rfl]
    rw [ih (fun x hx => h x (List.mem_cons_of_mem (c :: p1) hx))]
    simp

theorem stripGo_in_cons_ne (racc : List Char) (c : Char) (rest : List Char)
    (h1 : c ≠ '<') (h2 : c ≠ '>') :
    stripGo (some racc) (c :: rest) = stripGo (some (c :: racc)) rest := by
  rw [stripGo.eq_def]
  split <;> simp_all

theorem stripGo_in_closes :
    ∀ (q racc : List Char), '<' ∉ q → '>' ∉ q → racc ≠ [] → ∀ (rest : List Char),
      stripGo (some racc) (q ++ '>' :: rest) = stripGo none rest := by
  intro q
  induction q with
  | nil =>
    intro racc _ _ hr rest
    simp only [List.nil_append]
    rw [show stripGo (some racc) ('>' :: rest) =
        (if racc.isEmpty then '<' :: '>' :: stripGo none rest else stripGo none rest)
      from rfl]
    rw [if_neg (by simpa using hr)]
  | cons c q ih =>
    intro racc hlt hgt hr rest
    have h1 : c ≠ '<' := fun he => hlt (he ▸ List.mem_cons_self c q)
    have h2 : c ≠ '>' := fun he => hgt (he ▸ List.mem_cons_self c q)
    simp only [List.cons_append]
    rw [stripGo_in_cons_ne racc c (q ++ '>' :: rest) h1 h2]
    exact ih (c :: racc) (fun hm => hlt (List.mem_cons_of_mem c hm))
      (fun hm => hgt (List.mem_cons_of_mem c hm)) (by simp) rest

theorem stripTags_imgTags :
    ∀ (ps : List (List Char)), (∀ p ∈ ps, '<' ∉ p ∧ '>' ∉ p) →
      stripTags (joinImgTags ps) = [] := by
  intro ps
  induction ps with
  | nil => intro _; rfl
  | cons p pt ih =>
    intro h
    obtain ⟨hlt, hgt⟩ := h p (List.mem_cons_self p pt)
    rw [show joinImgTags (p :: pt) = imgTagFor p ++ joinImgTags pt from rfl, imgTagFor]
    simp only [List.cons_append, List.append_assoc, List.nil_append]
    rw [show stripTags
        ('<' :: 'i' :: 'm' :: 'g' :: ' ' :: 's' :: 'r' :: 'c' :: '=' :: '"' ::
          (p ++ '"' :: '>' :: joinImgTags pt)) =
        stripGo (some ['"', '=', 'c', 'r', 's', ' ', 'g', 'm', 'i'])
          (p ++ '"' :: '>' :: joinImgTags pt) from rfl]
    have hq : stripGo (some ['"', '=', 'c', 'r', 's', ' ', 'g', 'm', 'i'])
        ((p ++ ['"']) ++ '>' :: joinImgTags pt) = stripGo none (joinImgTags pt) := by
      apply stripGo_in_closes (p ++ ['"'])
      · simp only [List.mem_append, List.mem_singleton]
        rintro (hm | hm)
        · exact hlt hm
        · exact absurd hm (by decide)
      · simp only [List.mem_append, List.mem_singleton]
        rintro (hm | hm)
        · exact hgt hm
        · exact absurd hm (by decide)
      · simp
    simp only [List.append_assoc, List.cons_append, List.nil_append] at hq
    rw [hq]
    exact ih (fun x hx => h x (List.mem_cons_of_mem p hx))

theorem takeUntilQ_none_of_no_quote :
    ∀ (cs : List Char), '"' ∉ cs → takeUntilQ cs = none := by
  intro cs
  induction cs with
  | nil => intro h1; rfl
  | cons c rest ih =>
    intro h
    have hc : c ≠ '"' := fun he => h (he ▸ List.mem_cons_self c rest)
    have hrest : '"' ∉ rest := fun hm => h (List.mem_cons_of_mem c hm)
    rw [takeUntilQ, if_neg hc, ih hrest]

theorem takeUntilQ_closes :
    ∀ (q : List Char), '"' ∉ q → ∀ (r : List Char),
      takeUntilQ (q ++ '"' :: r) = some (q, r) := by
  intro q
  induction q with
  | nil =>
    intro h1 r
    rw [List.nil_append, takeUntilQ, if_pos rfl]
  | cons c q ih =>
    intro h r
    have hc : c ≠ '"' := fun he => h (he ▸ List.mem_cons_self c q)
    have hq : '"' ∉ q := fun hm => h (List.mem_cons_of_mem c hm)
    rw [List.cons_append, takeUntilQ, if_neg hc, ih hq r]

theorem srcCapture?_ne_s {c : Char} {rest : List Char} (h : c ≠ 's') :
    srcCapture? (c :: rest) = none := by
  rw [srcCapture?.eq_def]
  split
  · rename_i rest0 heq
    injection heq with h1 h2
    exact absurd h1 h
  · rfl

theorem srcCapture?_block1 {c : Char} {rest : List Char} (h : c ≠ 'r') :
    srcCapture? ('s' :: c :: rest) = none := by
  rw [srcCapture?.eq_def]
  split
  · rename_i rest0 heq
    injection heq with h1 h2
    injection h2 with h3 h4
    exact absurd h3 h
  · rfl

theorem srcCapture?_block2 {c : Char} {rest : List Char} (h : c ≠ 'c') :
    srcCapture? ('s' :: 'r' :: c :: rest) = none := by
  rw [srcCapture?.eq_def]
  split
  · rename_i rest0 heq
    injection heq with h1 h2
    injection h2 with h3 h4
    injection h4 with h5 h6
    exact absurd h5 h
  · rfl

theorem srcCapture?_block3 {c : Char} {rest : List Char} (h : c ≠ '=') :
    srcCapture? ('s' :: 'r' :: 'c' :: c :: rest) = none := by
  rw [srcCapture?.eq_def]
  split
  · rename_i rest0 heq
    injection heq with h1 h2
    injection h2 with h3 h4
    injection h4 with h5 h6
    injection h6 with h7 h8
    exact absurd h7 h
  · rfl

theorem srcCapture?_block4 {c : Char} {rest : List Char} (h : c ≠ '"') :
    srcCapture? ('s' :: 'r' :: 'c' :: '=' :: c :: rest) = none := by
  rw [srcCapture?.eq_def]
  split
  · rename_i rest0 heq
    injection heq with h1 h2
    injection h2 with h3 h4
    injection h4 with h5 h6
    injection h6 with h7 h8
    injection h8 with h9 h10
    exact absurd h9 h
  · rfl

theorem srcCapture?_open_no_quote {q : List Char} (h : '"' ∉ q) :
    srcCapture? ('s' :: 'r' :: 'c' :: '=' :: '"' :: q) = none := by
  rw [show srcCapture? ('s' :: 'r' :: 'c' :: '=' :: '"' :: q) =
      (match takeUntilQ q with
       | some ([], _) => none
       | some (c :: v, r) => some (c :: v, r)
       | none => none) from rfl]
  rw [takeUntilQ_none_of_no_quote q h]

theorem srcCapture?_closes {q : List Char} (hq : '"' ∉ q) (hne : q ≠ []) (r : List Char) :
    srcCapture? ('s' :: 'r' :: 'c' :: '=' :: '"' :: (q ++ '"' :: r)) = some (q, r) := by
  obtain ⟨c, q1, rfl⟩ : ∃ c q1, q = c :: q1 := by
    cases q with
    | nil => exact absurd rfl hne
    | cons a b => exact ⟨a, b, rfl⟩
  rw [show srcCapture? ('s' :: 'r' :: 'c' :: '=' :: '"' :: ((c :: q1) ++ '"' :: r)) =
      (match takeUntilQ ((c :: q1) ++ '"' :: r) with
       | some ([], _) => none
       | some (c0 :: v, r0) => some (c0 :: v, r0)
       | none => none) from rfl]
  rw [takeUntilQ_closes (c :: q1) hq r]

theorem srcCapture?_empty_cap {rest : List Char} :
    srcCapture? ('s' :: 'r' :: 'c' :: '=' :: '"' :: '"' :: rest) = none := rfl

theorem srcCapture?_none_of_no_quote {cs : List Char} (h : '"' ∉ cs) :
    srcCapture? cs = none := by
  rw [srcCapture?.eq_def]
  split
  · simp at h
  · rfl

theorem specExtract_nil : specExtract [] = [] := by
  rw [specExtract.eq_def]

theorem specExtract_cons_none {c : Char} {rest : List Char}
    (h : srcCapture? (c :: rest) = none) :
    specExtract (c :: rest) = specExtract rest := by
  rw [specExtract.eq_def]
  split
  · rename_i heq
    exact absurd heq (by simp)
  · rename_i c2 rest2 heq
    injection heq with h1 h2
    subst h1
    subst h2
    split
    · rename_i pr heq2
      rw [h] at heq2
      exact absurd heq2 (by simp)
    · rfl

theorem specExtract_cons_some {c : Char} {rest v r : List Char}
    (h : srcCapture? (c :: rest) = some (v, r)) :
    specExtract (c :: rest) = v :: specExtract r := by
  rw [specExtract.eq_def]
  split
  · rename_i heq
    exact absurd heq (by simp)
  · rename_i c2 rest2 heq
    injection heq with h1 h2
    subst h1
    subst h2
    split
    · rename_i pr heq2
      rw [h] at heq2
      injection heq2 with h3
      rw [← h3]
    · rename_i heq2
      rw [h] at heq2
      simp at heq2

theorem specExtract_of_no_quote :
    ∀ (cs : List Char), '"' ∉ cs → specExtract cs = [] := by
  intro cs
  induction cs with
  | nil => intro h1; exact specExtract_nil
  | cons c rest ih =>
    intro h
    rw [specExtract_cons_none (srcCapture?_none_of_no_quote h)]
    exact ih (fun hm => h (List.mem_cons_of_mem c hm))

theorem imgGoInv_nil :
    (∀ p, p ≤ 4 → imgGo (Sum.inl p) [] = specExtract (srcTaken p ++ [])) ∧
      (∀ racc, '"' ∉ racc →
        imgGo (Sum.inr racc) [] =
          specExtract ('s' :: 'r' :: 'c' :: '=' :: '"' :: (racc.reverse ++ []))) := by
  constructor
  · intro p hp
    interval_cases p
    · rw [show (srcTaken 0 ++ [] : List Char) = [] from rfl, specExtract_nil]
      rfl
    · rw [List.append_nil, specExtract_of_no_quote (srcTaken 1) (by decide)]
      rfl
    · rw [List.append_nil, specExtract_of_no_quote (srcTaken 2) (by decide)]
      rfl
    · rw [List.append_nil, specExtract_of_no_quote (srcTaken 3) (by decide)]
      rfl
    · rw [List.append_nil, specExtract_of_no_quote (srcTaken 4) (by decide)]
      rfl
  · intro racc hq
    rw [List.append_nil]
    have hqr : '"' ∉ racc.reverse := by simpa using hq
    rw [specExtract_cons_none (srcCapture?_open_no_quote hqr)]
    rw [specExtract_cons_none (srcCapture?_ne_s (by decide))]
    rw [specExtract_cons_none (srcCapture?_ne_s (by decide))]
    rw [specExtract_cons_none (srcCapture?_ne_s (by decide))]
    rw [specExtract_cons_none (srcCapture?_ne_s (by decide))]
    rw [specExtract_of_no_quote racc.reverse hqr]
    rfl

theorem imgGoInv : ∀ (n : Nat) (cs : List Char), cs.length ≤ n →
    (∀ p, p ≤ 4 → imgGo (Sum.inl p) cs = specExtract (srcTaken p ++ cs)) ∧
      (∀ racc, '"' ∉ racc →
        imgGo (Sum.inr racc) cs =
          specExtract ('s' :: 'r' :: 'c' :: '=' :: '"' :: (racc.reverse ++ cs))) := by
  intro n
  induction n with
  | zero =>
    intro cs hlen
    have hnil : cs = [] := List.eq_nil_of_length_eq_zero (Nat.le_zero.mp hlen)
    subst hnil
    exact imgGoInv_nil
  | succ m ih =>
    intro cs hlen
    cases cs with
    | nil => exact imgGoInv_nil
    | cons c rest =>
      have hrest : rest.length ≤ m := by
        simp only [List.length_cons] at hlen
        omega
      obtain ⟨ihS, ihC⟩ := ih rest hrest
      constructor
      · intro p hp
        interval_cases p
        · by_cases hc : c = 's'
          · subst hc
            rw [show imgGo (Sum.inl 0) ('s' :: rest) = imgGo (Sum.inl 1) rest from rfl,
              ihS 1 (by decide)]
            rfl
          · rw [show imgGo (Sum.inl 0) (c :: rest) =
                (if c = 's' then imgGo (Sum.inl 1) rest
                 else if c = 's' then imgGo (Sum.inl 1) rest
                 else imgGo (Sum.inl 0) rest) from rfl,
              if_neg hc, if_neg hc, ihS 0 (by decide)]
            show specExtract rest = specExtract (c :: rest)
            rw [specExtract_cons_none (srcCapture?_ne_s hc)]
        · by_cases hc : c = 'r'
          · subst hc
            rw [show imgGo (Sum.inl 1) ('r' :: rest) = imgGo (Sum.inl 2) rest from rfl,
              ihS 2 (by decide)]
            rfl
          · by_cases hs : c = 's'
            · subst hs
              rw [show imgGo (Sum.inl 1) ('s' :: rest) = imgGo (Sum.inl 1) rest from rfl,
                ihS 1 (by decide)]
              show specExtract ('s' :: rest) = specExtract ('s' :: 's' :: rest)
              rw [specExtract_cons_none (srcCapture?_block1 (by decide))]
            · rw [show imgGo (Sum.inl 1) (c :: rest) =
                  (if c = 'r' then imgGo (Sum.inl 2) rest
                   else if c = 's' then imgGo (Sum.inl 1) rest
                   else imgGo (Sum.inl 0) rest) from rfl,
                if_neg hc, if_neg hs, ihS 0 (by decide)]
              show specExtract rest = specExtract ('s' :: c :: rest)
              rw [specExtract_cons_none (srcCapture?_block1 hc)]
              rw [specExtract_cons_none (srcCapture?_ne_s hs)]
        · by_cases hc : c = 'c'
          · subst hc
            rw [show imgGo (Sum.inl 2) ('c' :: rest) = imgGo (Sum.inl 3) rest from rfl,
              ihS 3 (by decide)]
            rfl
          · by_cases hs : c = 's'
            · subst hs
              rw [show imgGo (Sum.inl 2) ('s' :: rest) = imgGo (Sum.inl 1) rest from rfl,
                ihS 1 (by decide)]
              show specExtract ('s' :: rest) = specExtract ('s' :: 'r' :: 's' :: rest)
              rw [specExtract_cons_none (srcCapture?_block2 (by decide))]
              rw [specExtract_cons_none (@srcCapture?_ne_s 'r' ('s' :: rest) (by decide))]
            · rw [show imgGo (Sum.inl 2) (c :: rest) =
                  (if c = 'c' then imgGo (Sum.inl 3) rest
                   else if c = 's' then imgGo (Sum.inl 1) rest
                   else imgGo (Sum.inl 0) rest) from rfl,
                if_neg hc, if_neg hs, ihS 0 (by decide)]
              show specExtract rest = specExtract ('s' :: 'r' :: c :: rest)
              rw [specExtract_cons_none (srcCapture?_block2 hc)]
              rw [specExtract_cons_none (srcCapture?_ne_s (by decide))]
              rw [specExtract_cons_none (srcCapture?_ne_s hs)]
        · by_cases hc : c = '='
          · subst hc
            rw [show imgGo (Sum.inl 3) ('=' :: rest) = imgGo (Sum.inl 4) rest from rfl,
              ihS 4 (by decide)]
            rfl
          · by_cases hs : c = 's'
            · subst hs
              rw [show imgGo (Sum.inl 3) ('s' :: rest) = imgGo (Sum.inl 1) rest from rfl,
                ihS 1 (by decide)]
              show specExtract ('s' :: rest) = specExtract ('s' :: 'r' :: 'c' :: 's' :: rest)
              rw [specExtract_cons_none (srcCapture?_block3 (by decide))]
              rw [specExtract_cons_none (@srcCapture?_ne_s 'r' ('c' :: 's' :: rest) (by decide))]
              rw [specExtract_cons_none (@srcCapture?_ne_s 'c' ('s' :: rest) (by decide))]
            · rw [show imgGo (Sum.inl 3) (c :: rest) =
                  (if c = '=' then imgGo (Sum.inl 4) rest
                   else if c = 's' then imgGo (Sum.inl 1) rest
                   else imgGo (Sum.inl 0) rest) from rfl,
                if_neg hc, if_neg hs, ihS 0 (by decide)]
              show specExtract rest = specExtract ('s' :: 'r' :: 'c' :: c :: rest)
              rw [specExtract_cons_none (srcCapture?_block3 hc)]
              rw [specExtract_cons_none (srcCapture?_ne_s (by decide))]
              rw [specExtract_cons_none (srcCapture?_ne_s (by decide))]
              rw [specExtract_cons_none (srcCapture?_ne_s hs)]
        · by_cases hc : c = '"'
          · subst hc
            rw [show imgGo (Sum.inl 4) ('"' :: rest) = imgGo (Sum.inr []) rest from rfl,
              ihC [] (by simp)]
            rfl
          · by_cases hs : c = 's'
            · subst hs
              rw [show imgGo (Sum.inl 4) ('s' :: rest) = imgGo (Sum.inl 1) rest from rfl,
                ihS 1 (by decide)]
              show specExtract ('s' :: rest) =
                specExtract ('s' :: 'r' :: 'c' :: '=' :: 's' :: rest)
              rw [specExtract_cons_none (srcCapture?_block4 (by decide))]
              rw [specExtract_cons_none
                (@srcCapture?_ne_s 'r' ('c' :: '=' :: 's' :: rest) (by decide))]
              rw [specExtract_cons_none (@srcCapture?_ne_s 'c' ('=' :: 's' :: rest) (by decide))]
              rw [specExtract_cons_none (@srcCapture?_ne_s '=' ('s' :: rest) (by decide))]
            · rw [show imgGo (Sum.inl 4) (c :: rest) =
                  (if c = '"' then imgGo (Sum.inr []) rest
                   else if c = 's' then imgGo (Sum.inl 1) rest
                   else imgGo (Sum.inl 0) rest) from rfl,
                if_neg hc, if_neg hs, ihS 0 (by decide)]
              show specExtract rest = specExtract ('s' :: 'r' :: 'c' :: '=' :: c :: rest)
              rw [specExtract_cons_none (srcCapture?_block4 hc)]
              rw [specExtract_cons_none (srcCapture?_ne_s (by decide))]
              rw [specExtract_cons_none (srcCapture?_ne_s (by decide))]
              rw [specExtract_cons_none (srcCapture?_ne_s (by decide))]
              rw [specExtract_cons_none (srcCapture?_ne_s hs)]
      · intro racc hq
        by_cases hc : c = '"'
        · subst hc
          cases racc with
          | nil =>
            rw [show imgGo (Sum.inr ([] : List Char)) ('"' :: rest) = imgGo (Sum.inl 0) rest
              from rfl, ihS 0 (by decide)]
            show specExtract rest =
              specExtract ('s' :: 'r' :: 'c' :: '=' :: '"' :: '"' :: rest)
            rw [specExtract_cons_none srcCapture?_empty_cap]
            rw [specExtract_cons_none (srcCapture?_ne_s (by decide))]
            rw [specExtract_cons_none (srcCapture?_ne_s (by decide))]
            rw [specExtract_cons_none (srcCapture?_ne_s (by decide))]
            rw [specExtract_cons_none (srcCapture?_ne_s (by decide))]
            rw [specExtract_cons_none (srcCapture?_ne_s (by decide))]
          | cons r0 rt =>
            rw [show imgGo (Sum.inr (r0 :: rt)) ('"' :: rest) =
                (r0 :: rt).reverse :: imgGo (Sum.inl 0) rest from rfl,
              ihS 0 (by decide)]
            have hqr : '"' ∉ (r0 :: rt).reverse := fun hm => hq (List.mem_reverse.mp hm)
            rw [specExtract_cons_some (srcCapture?_closes hqr (by simp) rest)]
            rfl
        · rw [imgGo_cap_cons_ne racc c rest hc]
          have hq2 : '"' ∉ c :: racc := by
            intro hm
            rcases List.mem_cons.mp hm with h1 | h1
            · exact hc h1.symm
            · exact hq h1
          rw [ihC (c :: racc) hq2]
          simp only [List.reverse_cons, List.append_assoc, List.cons_append,
            List.singleton_append, List.nil_append]

/-- Counterexample to claim C5: an introtext with a `src="..."`
attribute but no image tag at all (no `<` anywhere) still contributes
its value to `images` — the extraction keys on `src="..."`
occurrences, not on image tags. -/
theorem claim5_cex :
    getArticle recPlainSrc =
      Except.ok ⟨"T", "2021-05-05 12:00:00", "see src=\"x.js\" here", ["x.js"]⟩ ∧
      '<' ∉ "see src=\"x.js\" here".data ∧
      (["x.js"] : List String) ≠ [] :=
  ⟨rfl, by decide, by decide⟩

/-- Claim C5 as amended: for every introtext, `images` is exactly the
list of `src="..."` attribute values occurring in the original
(pre-stripping) text — whether or not inside an image tag — in order
of first appearance, duplicates retained, as given by the reference
left-to-right scanner `specExtract`; and `get_article` reads the
original text: any Article it produces carries precisely this list. -/
theorem claim5_amended :
    (∀ (s : String), extractImages s = (specExtract s.data).map String.mk) ∧
      ∀ (r : RawRecord) (itx : String) (a : Article),
        r.introtext = some itx → getArticle r = Except.ok a →
        a.images = (specExtract itx.data).map String.mk := by
  have key : ∀ (s : String), extractImages s = (specExtract s.data).map String.mk := by
    intro s
    rw [extractImages]
    rw [(imgGoInv s.data.length s.data (Nat.le_refl s.data.length)).1 0 (by decide)]
    rfl
  refine ⟨key, ?_⟩
  intro r itx a hintro hok
  obtain ⟨rc, rk, rt, ri⟩ := r
  simp only at hintro
  subst hintro
  rw [getArticle] at hok
  rcases rt with _ | ti
  · exact absurd hok (by simp)
  · rcases rc with _ | cr
    · exact absurd hok (by simp)
    · simp only at hok
      injection hok with ha
      rw [← ha]
      exact key itx

/-- Witness for the amended claim C5: a concrete introtext with one
`src` attribute inside an image tag and a duplicate occurrence of the
same value outside any tag; both are collected, in order. -/
theorem claim5_amended_witness :
    getArticle recDupSrc =
        Except.ok ⟨"T", "2021-03-03 10:00:00", " and src=\"a.jpg\" again",
          ["a.jpg", "a.jpg"]⟩ ∧
      (["a.jpg", "a.jpg"] : List String) =
        (specExtract "<img src=\"a.jpg\"> and src=\"a.jpg\" again".data).map String.mk := by
  have h : getArticle recDupSrc =
      Except.ok ⟨"T", "2021-03-03 10:00:00", " and src=\"a.jpg\" again",
        ["a.jpg", "a.jpg"]⟩ := rfl
  refine ⟨h, ?_⟩
  exact claim5_amended.2 recDupSrc "<img src=\"a.jpg\"> and src=\"a.jpg\" again"
    ⟨"T", "2021-03-03 10:00:00", " and src=\"a.jpg\" again", ["a.jpg", "a.jpg"]⟩ rfl h

theorem charListLe_total : ∀ (xs ys : List Char), charListLe xs ys || charListLe ys xs := by
  intro xs
  induction xs with
  | nil => intro ys; simp [charListLe]
  | cons c cs ih =>
    intro ys
    cases ys with
    | nil => simp [charListLe]
    | cons d ds =>
      rw [charListLe, charListLe]
      by_cases h1 : c.toNat < d.toNat
      · simp [h1]
      · by_cases h2 : d.toNat < c.toNat
        · simp [h1, h2]
        · simp [h1, h2, ih ds]

theorem charListLe_trans :
    ∀ (xs ys zs : List Char), charListLe xs ys → charListLe ys zs → charListLe xs zs := by
  intro xs
  induction xs with
  | nil => intro ys zs _ _; exact rfl
  | cons c cs ih =>
    intro ys zs h1 h2
    cases ys with
    | nil => simp [charListLe] at h1
    | cons d ds =>
      cases zs with
      | nil => simp [charListLe] at h2
      | cons e es =>
        rw [charListLe] at h1 h2 ⊢
        by_cases hcd : c.toNat < d.toNat
        · by_cases hde : d.toNat < e.toNat
          · rw [if_pos (by omega)]
          · by_cases hed : e.toNat < d.toNat
            · rw [if_neg hde, if_pos hed] at h2
              simp at h2
            · rw [if_pos (by omega)]
        · by_cases hdc : d.toNat < c.toNat
          · rw [if_neg hcd, if_pos hdc] at h1
            simp at h1
          · rw [if_neg hcd, if_neg hdc] at h1
            by_cases hde : d.toNat < e.toNat
            · rw [if_pos (by omega)]
            · by_cases hed : e.toNat < d.toNat
              · rw [if_neg hde, if_pos hed] at h2
                simp at h2
              · rw [if_neg hde, if_neg hed] at h2
                rw [if_neg (by omega), if_neg (by omega)]
                exact ih ds es h1 h2

theorem dateLe_trans : ∀ (a b c : Article), dateLe a b → dateLe b c → dateLe a c := by
  intro a b c hab hbc
  exact charListLe_trans a.date.data b.date.data c.date.data hab hbc

theorem dateLe_total : ∀ (a b : Article), dateLe a b || dateLe b a := by
  intro a b
  exact charListLe_total a.date.data b.date.data

theorem insertArticleByDate_middle :
    ∀ (l₁ l₂ : List Article) (a : Article),
      (∀ b ∈ l₁, dateLe a b = false) → (∀ c ∈ l₂, dateLe a c = true) →
      insertArticleByDate a (l₁ ++ l₂) = l₁ ++ a :: l₂ := by
  intro l₁
  induction l₁ with
  | nil =>
    intro l₂ a _ h₂
    cases l₂ with
    | nil => rfl
    | cons c t =>
      rw [List.nil_append, insertArticleByDate,
        if_pos (h₂ c (List.mem_cons_self c t)), List.nil_append]
  | cons b l₁ ih =>
    intro l₂ a h₁ h₂
    rw [List.cons_append, insertArticleByDate]
    rw [if_neg (by rw [h₁ b (List.mem_cons_self b l₁)]; simp)]
    rw [ih l₂ a (fun x hx => h₁ x (List.mem_cons_of_mem b hx)) h₂, List.cons_append]

theorem mergeSort_eq_sortArticlesByDate :
    ∀ (l : List Article), l.mergeSort dateLe = sortArticlesByDate l := by
  intro l
  induction l with
  | nil => simp [List.mergeSort, sortArticlesByDate]
  | cons a t ih =>
    obtain ⟨l₁, l₂, h1, h2, h3⟩ := List.mergeSort_cons dateLe_trans dateLe_total a t
    have hsorted := List.sorted_mergeSort dateLe_trans dateLe_total (a :: t)
    rw [h1] at hsorted
    have hmid : ∀ c ∈ l₂, dateLe a c = true := by
      intro c hc
      have := (List.pairwise_append.mp hsorted).2.1
      exact List.rel_of_pairwise_cons this hc
    have hleft : ∀ b ∈ l₁, dateLe a b = false := by
      intro b hb
      have := h3 b hb
      simpa using this
    rw [h1, sortArticlesByDate, ← ih, h2, insertArticleByDate_middle l₁ l₂ a hleft hmid]

theorem selectRecord_ok_eq {r : RawRecord} {year catid : Nat} {b : Bool}
    (h : selectRecord r year catid = Except.ok b) : b = claimKeep year catid r := by
  obtain ⟨rc, rk, rt, ri⟩ := r
  rw [selectRecord] at h
  rw [claimKeep]
  rcases rc with _ | d <;> rcases rk with _ | k
  · simp only at h ⊢
    injection h with hb
    exact hb.symm
  · simp only at h ⊢
    injection h with hb
    exact hb.symm
  · simp only at h ⊢
    injection h with hb
    exact hb.symm
  · cases hd : parseDateTime d with
    | none =>
      simp only [hd] at h
      exact absurd h (by simp)
    | some dt =>
      simp only [hd] at h ⊢
      by_cases hy : yearAsU32 dt.year = year
      · simp only [if_pos hy] at h
        cases hp : parseU32 k with
        | none =>
          simp only [hp] at h
          exact absurd h (by simp)
        | some v =>
          simp only [hp] at h ⊢
          injection h with hb
          rw [← hb]
          simp [hy]
      · simp only [if_neg hy] at h
        injection h with hb
        rw [← hb]
        simp [hy]

theorem selectAndMap_ok :
    ∀ (records : List RawRecord) (year catid : Nat) (arts : List Article),
      selectAndMap year catid records = Except.ok arts →
      arts = claimSelected year catid records := by
  intro records
  induction records with
  | nil =>
    intro year catid arts h
    injection h with h'
    rw [← h']
    rfl
  | cons r rest ih =>
    intro year catid arts h
    rw [selectAndMap] at h
    rw [claimSelected, List.filterMap_cons]
    cases hsel : selectRecord r year catid with
    | error e => rw [hsel] at h; exact absurd h (by simp)
    | ok b =>
      rw [hsel] at h
      have hb := selectRecord_ok_eq hsel
      cases hbv : b with
      | false =>
        rw [hbv] at h
        rw [← hb, hbv]
        simp only [Bool.false_eq_true, if_neg, if_false]
        exact ih year catid arts h
      | true =>
        rw [hbv] at h
        rw [← hb, hbv]
        simp only [if_pos]
        cases hart : getArticle r with
        | error e => rw [hart] at h; exact absurd h (by simp)
        | ok a =>
          rw [hart] at h
          cases hrest : selectAndMap year catid rest with
          | error e => rw [hrest] at h; exact absurd h (by simp)
          | ok as1 =>
            rw [hrest] at h
            injection h with h'
            rw [← h']
            rw [show (Except.ok a : Except String Article).toOption = some a from rfl]
            rw [ih year catid as1 hrest]
            rfl

/-- Claim C1: for every record set, year and category, a successful
`get_articles` run returns the year and exactly the claim's selection
— the records with `created` and `catid` present as strings, parsed
creation year equal to `year` and parsed category equal to `catid`,
mapped to Articles in source order — stably sorted by the `date`
string (the textbook stable insertion sort by non-decreasing date,
which keeps tied elements in source order), and the result is pairwise
non-decreasing in `date`. -/
theorem claim1_select_stable_sorted (records : List RawRecord) (year catid : Nat)
    (bundle : YearArticles) (h : getArticles records year catid = Except.ok bundle) :
    bundle.year = year ∧
      bundle.articles = sortArticlesByDate (claimSelected year catid records) ∧
      bundle.articles.Pairwise (fun a b => dateLe a b = true) := by
  rw [getArticles] at h
  cases hsel : selectAndMap year catid records with
  | error e => rw [hsel] at h; exact absurd h (by simp)
  | ok arts =>
    rw [hsel] at h
    injection h with h'
    rw [← h']
    refine ⟨rfl, ?_, ?_⟩
    · show arts.mergeSort dateLe = sortArticlesByDate (claimSelected year catid records)
      rw [mergeSort_eq_sortArticlesByDate, selectAndMap_ok records year catid arts hsel]
    · show (arts.mergeSort dateLe).Pairwise (fun a b => dateLe a b = true)
      exact List.sorted_mergeSort dateLe_trans dateLe_total arts

/-- Witness for claim C1 on `recsW`: B (earliest) first, then the tied
A and C in source order; D, E, F filtered out. -/
theorem claim1_select_stable_sorted_witness :
    bundleW.year = 2021 ∧
      bundleW.articles = sortArticlesByDate (claimSelected 2021 5 recsW) ∧
      bundleW.articles.Pairwise (fun a b => dateLe a b = true) :=
  claim1_select_stable_sorted recsW 2021 5 bundleW (by
    rw [show getArticles recsW 2021 5 =
        Except.ok ⟨2021, ([⟨"A", "2021-06-01 12:00:00", "one.", []⟩,
          ⟨"B", "2021-05-01 12:00:00", "two.", []⟩,
          ⟨"C", "2021-06-01 12:00:00", "three.", []⟩] : List Article).mergeSort dateLe⟩
      from rfl]
    rw [mergeSort_eq_sortArticlesByDate]
    rfl)

theorem joinPath_length (p : FsPath) (c : String) :
    (joinPath p c).length = p.length + 1 := by
  simp [joinPath]

theorem joinPath_cancel {p : FsPath} {c d : String} (h : joinPath p c = joinPath p d) :
    c = d := by
  simp only [joinPath] at h
  have := List.append_cancel_left h
  injection this

theorem copyImagesLoop_paths :
    ∀ (imgs : List String) (year : Nat) (dir : FsPath) (ai : Nat) (st : FsState) (j0 : Nat)
      (st2 : FsState) (cops : List FsOp),
      copyImagesLoop year dir ai st j0 imgs = Except.ok (st2, cops) →
      ∀ p ∈ st2.paths, p ∈ st.paths ∨ ∃ name, p = joinPath dir name := by
  intro imgs
  induction imgs with
  | nil =>
    intro year dir ai st j0 st2 cops h p hp
    rw [copyImagesLoop] at h
    injection h with h'
    injection h' with h1 h2
    rw [← h1] at hp
    exact Or.inl hp
  | cons im rest ih =>
    intro year dir ai st j0 st2 cops h p hp
    rw [copyImagesLoop] at h
    by_cases hsrc : joinPath oldWebsiteDir im ∈ st.paths
    · rw [if_pos hsrc] at h
      cases hrec : copyImagesLoop year dir ai
          (st.add (joinPath dir (natDecimal year ++ "-" ++ formatArticleIndex ai
            ++ "-" ++ formatImageIndex j0 ++ ".jpg"))) (j0 + 1) rest with
      | error e => rw [hrec] at h; exact absurd h (by simp)
      | ok pr =>
        rw [hrec] at h
        injection h with h'
        injection h' with h1 h2
        rw [← h1] at hp
        rcases ih year dir ai _ (j0 + 1) pr.1 pr.2 (by rw [hrec]) p hp with hin | hnew
        · simp only [FsState.add, List.mem_cons] at hin
          rcases hin with hdst | hold
          · exact Or.inr ⟨_, hdst⟩
          · exact Or.inl hold
        · exact Or.inr hnew
    · rw [if_neg hsrc] at h
      exact absurd h (by simp)

theorem copyThumbnailFs_paths {year : Nat} {thumbDir : FsPath} {st : FsState}
    {a : Article} {i : Nat} {st2 : FsState} {tops : List FsOp}
    (h : copyThumbnailFs year thumbDir st a i = Except.ok (st2, tops)) :
    ∀ p ∈ st2.paths,
      p ∈ st.paths ∨ p = joinPath thumbDir (formatArticleIndex i ++ ".jpg") := by
  intro p hp
  rw [copyThumbnailFs] at h
  cases hh : a.images.head? with
  | none =>
    rw [hh] at h
    injection h with h'
    injection h' with h1 h2
    rw [← h1] at hp
    exact Or.inl hp
  | some img =>
    rw [hh] at h
    have h2 : (if joinPath oldWebsiteDir img ∈ st.paths then
        (Except.ok (st.add (joinPath thumbDir (formatArticleIndex i ++ ".jpg")),
          [FsOp.copyFile (joinPath oldWebsiteDir img)
            (joinPath thumbDir (formatArticleIndex i ++ ".jpg"))]) :
          Except String (FsState × List FsOp))
      else Except.error "Failed to copy thumbnail") = Except.ok (st2, tops) := h
    by_cases hsrc : joinPath oldWebsiteDir img ∈ st.paths
    · rw [if_pos hsrc] at h2
      injection h2 with h'
      injection h' with h1 hops
      rw [← h1] at hp
      simp only [FsState.add, List.mem_cons] at hp
      rcases hp with hdst | hold
      · exact Or.inr hdst
      · exact Or.inl hold
    · rw [if_neg hsrc] at h2
      exact absurd h2 (by simp)

theorem copyImagesLoop_mem :
    ∀ (imgs : List String) (year : Nat) (dir : FsPath) (ai : Nat) (st : FsState) (j0 : Nat)
      (st2 : FsState) (cops : List FsOp),
      copyImagesLoop year dir ai st j0 imgs = Except.ok (st2, cops) →
      ∀ (j : Nat) (img : String), imgs.get? j = some img →
        FsOp.copyFile (joinPath oldWebsiteDir img)
          (joinPath dir (natDecimal year ++ "-" ++ formatArticleIndex ai
            ++ "-" ++ formatImageIndex (j0 + j) ++ ".jpg")) ∈ cops := by
  intro imgs
  induction imgs with
  | nil =>
    intro year dir ai st j0 st2 cops h j img hj
    simp at hj
  | cons im rest ih =>
    intro year dir ai st j0 st2 cops h j img hj
    rw [copyImagesLoop] at h
    by_cases hsrc : joinPath oldWebsiteDir im ∈ st.paths
    · rw [if_pos hsrc] at h
      cases hrec : copyImagesLoop year dir ai
          (st.add (joinPath dir (natDecimal year ++ "-" ++ formatArticleIndex ai
            ++ "-" ++ formatImageIndex j0 ++ ".jpg"))) (j0 + 1) rest with
      | error e => rw [hrec] at h; exact absurd h (by simp)
      | ok pr =>
        rw [hrec] at h
        injection h with h'
        injection h' with h1 h2
        rw [← h2]
        cases j with
        | zero =>
          rw [List.get?_cons_zero] at hj
          injection hj with him
          rw [← him, Nat.add_zero]
          exact List.mem_cons_self _ _
        | succ k =>
          rw [List.get?_cons_succ] at hj
          have hmem := ih year dir ai _ (j0 + 1) pr.1 pr.2 (by rw [hrec]) k img hj
          have harith : j0 + 1 + k = j0 + (k + 1) := by omega
          rw [harith] at hmem
          exact List.mem_cons_of_mem _ hmem
    · rw [if_neg hsrc] at h
      exact absurd h (by simp)

theorem writeArticleFs_spec {year : Nat} {st : FsState} {seriesDir : FsPath}
    {a : Article} {i : Nat} {st2 : FsState} {aops : List FsOp}
    (h : writeArticleFs year st seriesDir a i = Except.ok (st2, aops))
    (hmd : joinPath (joinPath seriesDir (formatArticleIndex i)) "index.md" ∉ st.paths) :
    ∃ cops,
      aops = FsOp.createDir (joinPath seriesDir (formatArticleIndex i))
        :: FsOp.writeFile (joinPath (joinPath seriesDir (formatArticleIndex i)) "index.md")
             (a.toMarkdown year i)
        :: FsOp.createDir (joinPath (joinPath seriesDir (formatArticleIndex i)) "img")
        :: cops ∧
      (∀ (j : Nat) (img : String), a.images.get? j = some img →
        FsOp.copyFile (joinPath oldWebsiteDir img)
          (joinPath (joinPath (joinPath seriesDir (formatArticleIndex i)) "img")
            (natDecimal year ++ "-" ++ formatArticleIndex i ++ "-"
              ++ formatImageIndex j ++ ".jpg")) ∈ cops) ∧
      (∀ p ∈ st2.paths, p ∈ st.paths
        ∨ p = joinPath seriesDir (formatArticleIndex i)
        ∨ p = joinPath (joinPath seriesDir (formatArticleIndex i)) "index.md"
        ∨ p = joinPath (joinPath seriesDir (formatArticleIndex i)) "img"
        ∨ ∃ name, p = joinPath (joinPath (joinPath seriesDir (formatArticleIndex i)) "img") name) := by
  simp only [writeArticleFs, Article.write] at h
  by_cases hdir : joinPath seriesDir (formatArticleIndex i) ∈ st.paths
  · rw [if_pos hdir] at h
    exact absurd h (by simp)
  · rw [if_neg hdir] at h
    have hmd1 : joinPath (joinPath seriesDir (formatArticleIndex i)) "index.md" ∉
        (st.add (joinPath seriesDir (formatArticleIndex i))).paths := by
      simp only [FsState.add, List.mem_cons]
      rintro (he | hin)
      · have hlen := congrArg List.length he
        simp [joinPath] at hlen
      · exact hmd hin
    rw [if_neg hmd1] at h
    by_cases himg : joinPath (joinPath seriesDir (formatArticleIndex i)) "img" ∈
        ((st.add (joinPath seriesDir (formatArticleIndex i))).add
          (joinPath (joinPath seriesDir (formatArticleIndex i)) "index.md")).paths
    · rw [if_pos himg] at h
      exact absurd h (by simp)
    · rw [if_neg himg] at h
      cases hcil : copyImagesLoop year (joinPath (joinPath seriesDir (formatArticleIndex i)) "img") i
          (((st.add (joinPath seriesDir (formatArticleIndex i))).add
              (joinPath (joinPath seriesDir (formatArticleIndex i)) "index.md")).add
            (joinPath (joinPath seriesDir (formatArticleIndex i)) "img")) 0 a.images with
      | error e =>
        rw [hcil] at h
        exact absurd h (by simp)
      | ok pr =>
        rw [hcil] at h
        injection h with h'
        injection h' with h1 h2
        refine ⟨pr.2, ?_, ?_, ?_⟩
        · rw [← h2]
          simp
        · intro j img hj
          have := copyImagesLoop_mem a.images year
            (joinPath (joinPath seriesDir (formatArticleIndex i)) "img") i _ 0 pr.1 pr.2
            (by rw [hcil]) j img hj
          simpa using this
        · intro p hp
          rw [← h1] at hp
          rcases copyImagesLoop_paths a.images year
              (joinPath (joinPath seriesDir (formatArticleIndex i)) "img") i _ 0 pr.1 pr.2
              (by rw [hcil]) p hp with hin | hnew
          · simp only [FsState.add, List.mem_cons] at hin
            rcases hin with h3 | h3 | h3 | h3
            · exact Or.inr (Or.inr (Or.inr (Or.inl h3)))
            · exact Or.inr (Or.inr (Or.inl h3))
            · exact Or.inr (Or.inl h3)
            · exact Or.inl h3
          · exact Or.inr (Or.inr (Or.inr (Or.inr hnew)))

theorem joinPath2_eq {seriesDir : FsPath} {x y c d : String}
    (h : joinPath (joinPath seriesDir x) c = joinPath (joinPath seriesDir y) d) :
    x = y ∧ c = d := by
  simp only [joinPath, List.append_assoc] at h
  rw [List.append_right_inj] at h
  simp only [List.cons_append, List.nil_append, List.cons.injEq, and_true] at h
  exact h

theorem writeLoop_mem (year : Nat) (seriesDir thumbnailDir : FsPath)
    (hlen : thumbnailDir.length = seriesDir.length) :
    ∀ (arts : List Article) (i0 : Nat) (st st2 : FsState) (ops : List FsOp),
      (∀ j, i0 ≤ j →
        joinPath (joinPath seriesDir (formatArticleIndex j)) "index.md" ∉ st.paths) →
      writeArticlesLoop year seriesDir thumbnailDir st i0 arts = Except.ok (st2, ops) →
      ∀ (k : Nat) (b : Article), arts.get? k = some b →
        FsOp.writeFile (joinPath (joinPath seriesDir (formatArticleIndex (i0 + k))) "index.md")
            (b.toMarkdown year (i0 + k)) ∈ ops ∧
        ∀ (j : Nat) (img : String), b.images.get? j = some img →
          FsOp.copyFile (joinPath oldWebsiteDir img)
            (joinPath (joinPath (joinPath seriesDir (formatArticleIndex (i0 + k))) "img")
              (natDecimal year ++ "-" ++ formatArticleIndex (i0 + k) ++ "-"
                ++ formatImageIndex j ++ ".jpg")) ∈ ops := by
  intro arts
  induction arts with
  | nil =>
    intro i0 st st2 ops hinv hrun k b hk
    simp at hk
  | cons a rest ih =>
    intro i0 st st2 ops hinv hrun k b hk
    rw [writeArticlesLoop] at hrun
    simp only [writeSeriesIndexFs] at hrun
    cases hA : writeArticleFs year (st.add (joinPath seriesDir "_index.md")) seriesDir a i0 with
    | error e =>
      rw [hA] at hrun
      exact absurd hrun (by simp)
    | ok prA =>
      obtain ⟨stA, aops⟩ := prA
      rw [hA] at hrun
      simp only [] at hrun
      cases hT : copyThumbnailFs year thumbnailDir stA a i0 with
      | error e =>
        rw [hT] at hrun
        exact absurd hrun (by simp)
      | ok prT =>
        obtain ⟨stT, tops⟩ := prT
        rw [hT] at hrun
        simp only [] at hrun
        cases hR : writeArticlesLoop year seriesDir thumbnailDir stT (i0 + 1) rest with
        | error e =>
          rw [hR] at hrun
          exact absurd hrun (by simp)
        | ok prR =>
          obtain ⟨stR, rops⟩ := prR
          rw [hR] at hrun
          simp only [] at hrun
          injection hrun with hrun'
          injection hrun' with hst hops
          have hmd0 : joinPath (joinPath seriesDir (formatArticleIndex i0)) "index.md" ∉
              (st.add (joinPath seriesDir "_index.md")).paths := by
            simp only [FsState.add, List.mem_cons]
            rintro (he | hin)
            · have hl := congrArg List.length he
              simp [joinPath] at hl
            · exact hinv i0 (Nat.le_refl i0) hin
          obtain ⟨cops, haops, hcmem, hpaths⟩ := writeArticleFs_spec hA hmd0
          cases k with
          | zero =>
            rw [List.get?_cons_zero] at hk
            injection hk with hb
            subst hb
            rw [← hops, haops, Nat.add_zero]
            constructor
            · simp
            · intro j img hj
              have := hcmem j img hj
              simp [this]
          | succ k2 =>
            rw [List.get?_cons_succ] at hk
            have hinv2 : ∀ j, i0 + 1 ≤ j →
                joinPath (joinPath seriesDir (formatArticleIndex j)) "index.md" ∉ stT.paths := by
              intro j hj hmem
              rcases copyThumbnailFs_paths hT _ hmem with hmemA | heq
              · rcases hpaths _ hmemA with hin | heq | heq | heq | ⟨name, heq⟩
                · simp only [FsState.add, List.mem_cons] at hin
                  rcases hin with he | hin2
                  · have hl := congrArg List.length he
                    simp [joinPath] at hl
                  · exact hinv j (by omega) hin2
                · have hl := congrArg List.length heq
                  simp [joinPath] at hl
                · have hij := (joinPath2_eq heq).1
                  have := formatArticleIndex_injective hij
                  omega
                · have := (joinPath2_eq heq).2
                  simp at this
                · have hl := congrArg List.length heq
                  simp [joinPath] at hl
              · have hl := congrArg List.length heq
                simp [joinPath, hlen] at hl
            have hrest := ih (i0 + 1) stT stR rops hinv2 hR k2 b hk
            have harith : i0 + 1 + k2 = i0 + (k2 + 1) := by omega
            rw [harith] at hrest
            rw [← hops]
            constructor
            · have := hrest.1
              simp [this]
            · intro j img hj
              have := hrest.2 j img hj
              simp [this]

/-- Claim C6: in a successful run of `write_articles` into the output
root (starting from a filesystem holding only legacy assets), the
article at position `i` has its markdown written to
`output/content/{year}/{i}/index.md` with `i` zero-padded to 4 digits,
and its `j`-th image is copied to
`output/content/{year}/{i}/img/{year}-{i}-{j}.jpg` with `j` zero-padded
to 2 digits and the extension fixed to `.jpg` regardless of the source
image's extension. -/
theorem claim6_paths (ya : YearArticles) (st st2 : FsState) (ops : List FsOp)
    (hassets : ∀ p ∈ st.paths, p.head? = some "website.old")
    (hrun : ya.writeArticles st outputDir = Except.ok (st2, ops)) :
    ∀ (i : Nat) (a : Article), ya.articles.get? i = some a →
      FsOp.writeFile ["output", "content", natDecimal ya.year, formatArticleIndex i, "index.md"]
          (a.toMarkdown ya.year i) ∈ ops ∧
      ∀ (j : Nat) (img : String), a.images.get? j = some img →
        FsOp.copyFile (joinPath oldWebsiteDir img)
          ["output", "content", natDecimal ya.year, formatArticleIndex i, "img",
            natDecimal ya.year ++ "-" ++ formatArticleIndex i ++ "-"
              ++ formatImageIndex j ++ ".jpg"] ∈ ops := by
  intro i a hi
  simp only [YearArticles.writeArticles] at hrun
  have hser : joinPath (joinPath outputDir "content") (natDecimal ya.year) ∉ st.paths := by
    intro hmem
    have hh := hassets _ hmem
    simp [joinPath, outputDir] at hh
  rw [if_neg hser] at hrun
  cases hL : writeArticlesLoop ya.year
      (joinPath (joinPath outputDir "content") (natDecimal ya.year))
      (joinPath (joinPath outputDir "thumbnail") (natDecimal ya.year))
      ((st.add (joinPath (joinPath outputDir "content") (natDecimal ya.year))).add
        (joinPath (joinPath outputDir "thumbnail") (natDecimal ya.year))) 0 ya.articles with
  | error e =>
    rw [hL] at hrun
    exact absurd hrun (by simp)
  | ok prL =>
    obtain ⟨stL, lops⟩ := prL
    rw [hL] at hrun
    simp only [] at hrun
    injection hrun with hrun'
    injection hrun' with hst hops
    have hlen : (joinPath (joinPath outputDir "thumbnail") (natDecimal ya.year)).length =
        (joinPath (joinPath outputDir "content") (natDecimal ya.year)).length := by
      simp [joinPath, outputDir]
    have hinv : ∀ j, 0 ≤ j →
        joinPath (joinPath (joinPath (joinPath outputDir "content") (natDecimal ya.year))
            (formatArticleIndex j)) "index.md" ∉
          ((st.add (joinPath (joinPath outputDir "content") (natDecimal ya.year))).add
            (joinPath (joinPath outputDir "thumbnail") (natDecimal ya.year))).paths := by
      intro j _
      simp only [FsState.add, List.mem_cons]
      rintro (he | he | hin)
      · have hl := congrArg List.length he
        simp [joinPath, outputDir] at hl
      · have hl := congrArg List.length he
        simp [joinPath, outputDir] at hl
      · have hh := hassets _ hin
        simp [joinPath, outputDir] at hh
    have hmem := writeLoop_mem ya.year
      (joinPath (joinPath outputDir "content") (natDecimal ya.year))
      (joinPath (joinPath outputDir "thumbnail") (natDecimal ya.year)) hlen
      ya.articles 0 _ stL lops hinv hL i a hi
    rw [Nat.zero_add] at hmem
    have hp1 : joinPath (joinPath (joinPath (joinPath outputDir "content")
        (natDecimal ya.year)) (formatArticleIndex i)) "index.md" =
        ["output", "content", natDecimal ya.year, formatArticleIndex i, "index.md"] := by
      simp [joinPath, outputDir]
    have hp2 : joinPath (joinPath (joinPath (joinPath (joinPath outputDir "content")
        (natDecimal ya.year)) (formatArticleIndex i)) "img")
        (natDecimal ya.year ++ "-" ++ formatArticleIndex i ++ "-"
          ++ formatImageIndex i ++ ".jpg") =
        ["output", "content", natDecimal ya.year, formatArticleIndex i, "img",
          natDecimal ya.year ++ "-" ++ formatArticleIndex i ++ "-"
            ++ formatImageIndex i ++ ".jpg"] := by
      simp [joinPath, outputDir]
    constructor
    · rw [← hp1, ← hops]
      have := hmem.1
      simp [this]
    · intro j img hj
      have hpj : joinPath (joinPath (joinPath (joinPath (joinPath outputDir "content")
          (natDecimal ya.year)) (formatArticleIndex i)) "img")
          (natDecimal ya.year ++ "-" ++ formatArticleIndex i ++ "-"
            ++ formatImageIndex j ++ ".jpg") =
          ["output", "content", natDecimal ya.year, formatArticleIndex i, "img",
            natDecimal ya.year ++ "-" ++ formatArticleIndex i ++ "-"
              ++ formatImageIndex j ++ ".jpg"] := by
        simp [joinPath, outputDir]
      rw [← hpj, ← hops]
      have := hmem.2 j img hj
      simp [this]

/-- Witness for claim C6 on a concrete one-article, one-image run. -/
theorem claim6_paths_witness :
    FsOp.writeFile ["output", "content", natDecimal 2021, formatArticleIndex 0, "index.md"]
        (articleOneImg.toMarkdown 2021 0) ∈ opsW6 ∧
      FsOp.copyFile (joinPath oldWebsiteDir "img/x.jpg")
        ["output", "content", natDecimal 2021, formatArticleIndex 0, "img",
          natDecimal 2021 ++ "-" ++ formatArticleIndex 0 ++ "-"
            ++ formatImageIndex 0 ++ ".jpg"] ∈ opsW6 := by
  have h := claim6_paths yaW6 stW6 stW6f opsW6 (by decide) rfl 0 articleOneImg rfl
  exact ⟨h.1, h.2 0 "img/x.jpg" rfl⟩

end FFConv
